import Mathlib

/-!
Verification development for the rhizo branch-aware table storage engine.

This file shallowly embeds the parts of the Rust sources that the verified
claims are about:

* `rhizo_core/src/algebraic/{types,merge}.rs` — the algebraic merge engine
  (`OpType`, `AlgebraicValue`, `MergeResult`, `AlgebraicMerger::merge`).
* `rhizo_core/src/branch/{branch,manager}.rs` — branches, three-way diff
  (`BranchDiff::compute_with_base`) and `BranchManager::merge_fast_forward`.
* `udr_core/src/transaction/conflict.rs` — `PartitionLevelConflictDetector`.
* `rhizo_core/src/distributed/local_commit.rs` — `LocalCommitProtocol::commit_local`.
* `rhizo_core/src/transaction/manager.rs` — `TransactionManager::commit`,
  `check_conflicts` and `validate_snapshot`.
* `rhizo_core/src/catalog/file_catalog.rs` — `recover_pending_commits`.
* `rhizo_core/src/transaction/recovery.rs` — `RecoveryManager::recover` and
  `recover_and_apply`.

Modelling conventions:

* Rust `i64` is embedded as `Int` together with explicit bounds checks where
  the code uses `checked_add` / `checked_mul`.
* Rust `f64` is embedded as an abstract type `F` together with a record
  `FloatOps F` holding the primitive float operations the engine calls
  (`+`, `*`, `f64::max`, `f64::min`, and the `i64 as f64` cast).  Theorems
  that depend on properties of these primitives take them as hypotheses.
* `HashMap`s are embedded as association lists (`List (k × v)`), iterated in
  list order; `HashSet`s of strings/integers as `Finset`s (Rust `HashSet`
  equality is extensional set equality).
* Stateful code is embedded as explicit state passing; fallible code returns
  `Except`/`Option`; file-system state (catalog directories, branch files,
  the transaction log) is embedded as record structures holding its parsed
  contents.
-/

namespace Rhizo

/-- Primitive 64-bit float operations used by the merge engine
(`a + b`, `a * b`, `a.max(b)`, `a.min(b)` on `f64`, and the `i64 as f64`
cast used for cross-type numeric promotion).  The engine is embedded
parametrically in these so that theorems can state exactly which algebraic
facts about the float primitives they rely on. -/
structure FloatOps (F : Type) where
  fadd : F → F → F
  fmul : F → F → F
  fmax : F → F → F
  fmin : F → F → F
  ofInt : Int → F

/-- `OpType` from `rhizo_core/src/algebraic/types.rs`. -/
inductive OpType where
  | SemilatticeMax
  | SemilatticeMin
  | SemilatticeUnion
  | SemilatticeIntersect
  | AbelianAdd
  | AbelianMultiply
  | GenericOverwrite
  | GenericConditional
  | Unknown
deriving DecidableEq, Repr

namespace OpType

/-- `OpType::is_conflict_free`. -/
def is_conflict_free : OpType → Bool
  | .SemilatticeMax | .SemilatticeMin | .SemilatticeUnion | .SemilatticeIntersect
  | .AbelianAdd | .AbelianMultiply => true
  | _ => false

/-- `OpType::is_semilattice`. -/
def is_semilattice : OpType → Bool
  | .SemilatticeMax | .SemilatticeMin | .SemilatticeUnion | .SemilatticeIntersect => true
  | _ => false

/-- `OpType::is_abelian`. -/
def is_abelian : OpType → Bool
  | .AbelianAdd | .AbelianMultiply => true
  | _ => false

/-- The `Display` impl for `OpType`. -/
def display : OpType → String
  | .SemilatticeMax => "MAX"
  | .SemilatticeMin => "MIN"
  | .SemilatticeUnion => "UNION"
  | .SemilatticeIntersect => "INTERSECT"
  | .AbelianAdd => "ADD"
  | .AbelianMultiply => "MULTIPLY"
  | .GenericOverwrite => "OVERWRITE"
  | .GenericConditional => "CONDITIONAL"
  | .Unknown => "UNKNOWN"

end OpType

/-- The `i64` range bounds used by `checked_add` / `checked_mul`. -/
def i64Min : Int := -9223372036854775808

/-- Upper `i64` bound. -/
def i64Max : Int := 9223372036854775807

/-- `i64::checked_add`: `some (a + b)` when the mathematical sum is
representable in `i64`, `none` on overflow. -/
def checkedAdd (a b : Int) : Option Int :=
  if i64Min ≤ a + b ∧ a + b ≤ i64Max then some (a + b) else none

/-- `i64::checked_mul`. -/
def checkedMul (a b : Int) : Option Int :=
  if i64Min ≤ a * b ∧ a * b ≤ i64Max then some (a * b) else none

/-- `AlgebraicValue` from `rhizo_core/src/algebraic/types.rs`.
`Float` carries a value of the abstract float type `F`; `StringSet` and
`IntSet` are `HashSet`s embedded as `Finset`s. -/
inductive AlgebraicValue (F : Type) where
  | Integer : Int → AlgebraicValue F
  | Float : F → AlgebraicValue F
  | StringSet : Finset String → AlgebraicValue F
  | IntSet : Finset Int → AlgebraicValue F
  | Boolean : Bool → AlgebraicValue F
  | Null
deriving DecidableEq

namespace AlgebraicValue

variable {F : Type}

/-- `AlgebraicValue::is_null`. -/
def is_null : AlgebraicValue F → Bool
  | .Null => true
  | _ => false

/-- `AlgebraicValue::type_name`. -/
def type_name : AlgebraicValue F → String
  | .Integer _ => "Integer"
  | .Float _ => "Float"
  | .StringSet _ => "StringSet"
  | .IntSet _ => "IntSet"
  | .Boolean _ => "Boolean"
  | .Null => "Null"

end AlgebraicValue

/-- `MergeResult` from `rhizo_core/src/algebraic/merge.rs`. -/
inductive MergeResult (F : Type) where
  | Merged : AlgebraicValue F → MergeResult F
  | Conflict : AlgebraicValue F → AlgebraicValue F → String → MergeResult F
  | TypeMismatch : String → String → OpType → MergeResult F
deriving DecidableEq

namespace MergeResult

variable {F : Type}

/-- `MergeResult::is_merged`. -/
def is_merged : MergeResult F → Bool
  | .Merged _ => true
  | _ => false

/-- `MergeResult::is_conflict`. -/
def is_conflict : MergeResult F → Bool
  | .Conflict _ _ _ => true
  | _ => false

end MergeResult

namespace AlgebraicMerger

variable {F : Type}

/-- `AlgebraicMerger::merge_max`. -/
def merge_max (ops : FloatOps F) (v1 v2 : AlgebraicValue F) : MergeResult F :=
  match v1, v2 with
  | .Integer a, .Integer b => .Merged (.Integer (max a b))
  | .Float a, .Float b => .Merged (.Float (ops.fmax a b))
  | .Integer a, .Float b => .Merged (.Float (ops.fmax (ops.ofInt a) b))
  | .Float a, .Integer b => .Merged (.Float (ops.fmax a (ops.ofInt b)))
  | .Boolean a, .Boolean b => .Merged (.Boolean (a || b))
  | _, _ => .TypeMismatch v1.type_name v2.type_name .SemilatticeMax

/-- `AlgebraicMerger::merge_min`. -/
def merge_min (ops : FloatOps F) (v1 v2 : AlgebraicValue F) : MergeResult F :=
  match v1, v2 with
  | .Integer a, .Integer b => .Merged (.Integer (min a b))
  | .Float a, .Float b => .Merged (.Float (ops.fmin a b))
  | .Integer a, .Float b => .Merged (.Float (ops.fmin (ops.ofInt a) b))
  | .Float a, .Integer b => .Merged (.Float (ops.fmin a (ops.ofInt b)))
  | .Boolean a, .Boolean b => .Merged (.Boolean (a && b))
  | _, _ => .TypeMismatch v1.type_name v2.type_name .SemilatticeMin

/-- `AlgebraicMerger::merge_union`. -/
def merge_union (v1 v2 : AlgebraicValue F) : MergeResult F :=
  match v1, v2 with
  | .StringSet a, .StringSet b => .Merged (.StringSet (a ∪ b))
  | .IntSet a, .IntSet b => .Merged (.IntSet (a ∪ b))
  | .Boolean a, .Boolean b => .Merged (.Boolean (a || b))
  | _, _ => .TypeMismatch v1.type_name v2.type_name .SemilatticeUnion

/-- `AlgebraicMerger::merge_intersect`. -/
def merge_intersect (v1 v2 : AlgebraicValue F) : MergeResult F :=
  match v1, v2 with
  | .StringSet a, .StringSet b => .Merged (.StringSet (a ∩ b))
  | .IntSet a, .IntSet b => .Merged (.IntSet (a ∩ b))
  | .Boolean a, .Boolean b => .Merged (.Boolean (a && b))
  | _, _ => .TypeMismatch v1.type_name v2.type_name .SemilatticeIntersect

/-- `AlgebraicMerger::merge_add` (integer addition is `checked_add`;
overflow becomes a `Conflict`). -/
def merge_add (ops : FloatOps F) (v1 v2 : AlgebraicValue F) : MergeResult F :=
  match v1, v2 with
  | .Integer a, .Integer b =>
    match checkedAdd a b with
    | some sum => .Merged (.Integer sum)
    | none => .Conflict v1 v2 ("Integer overflow: " ++ toString a ++ " + " ++ toString b)
  | .Float a, .Float b => .Merged (.Float (ops.fadd a b))
  | .Integer a, .Float b => .Merged (.Float (ops.fadd (ops.ofInt a) b))
  | .Float a, .Integer b => .Merged (.Float (ops.fadd a (ops.ofInt b)))
  | _, _ => .TypeMismatch v1.type_name v2.type_name .AbelianAdd

/-- `AlgebraicMerger::merge_multiply`. -/
def merge_multiply (ops : FloatOps F) (v1 v2 : AlgebraicValue F) : MergeResult F :=
  match v1, v2 with
  | .Integer a, .Integer b =>
    match checkedMul a b with
    | some product => .Merged (.Integer product)
    | none => .Conflict v1 v2 ("Integer overflow: " ++ toString a ++ " * " ++ toString b)
  | .Float a, .Float b => .Merged (.Float (ops.fmul a b))
  | .Integer a, .Float b => .Merged (.Float (ops.fmul (ops.ofInt a) b))
  | .Float a, .Integer b => .Merged (.Float (ops.fmul a (ops.ofInt b)))
  | _, _ => .TypeMismatch v1.type_name v2.type_name .AbelianMultiply

/-- `AlgebraicMerger::merge`: null on either side returns the other side,
non-conflict-free operations yield `Conflict`, otherwise dispatch to the
per-operation merge. -/
def merge (ops : FloatOps F) (op_type : OpType) (value1 value2 : AlgebraicValue F) :
    MergeResult F :=
  if value1.is_null then .Merged value2
  else if value2.is_null then .Merged value1
  else if !op_type.is_conflict_free then
    .Conflict value1 value2
      ("Operation type " ++ op_type.display ++ " is not conflict-free")
  else
    match op_type with
    | .SemilatticeMax => merge_max ops value1 value2
    | .SemilatticeMin => merge_min ops value1 value2
    | .SemilatticeUnion => merge_union value1 value2
    | .SemilatticeIntersect => merge_intersect value1 value2
    | .AbelianAdd => merge_add ops value1 value2
    | .AbelianMultiply => merge_multiply ops value1 value2
    | _ =>
      .Conflict value1 value2
        ("Unexpected operation type: " ++ op_type.display)

/-- Left association of two merges, propagating a failed inner merge:
`merge(op, merge(op, a, b), c)`. -/
def mergeAssocL (ops : FloatOps F) (op : OpType) (a b c : AlgebraicValue F) :
    MergeResult F :=
  match merge ops op a b with
  | .Merged v => merge ops op v c
  | r => r

/-- Right association of two merges, propagating a failed inner merge:
`merge(op, a, merge(op, b, c))`. -/
def mergeAssocR (ops : FloatOps F) (op : OpType) (a b c : AlgebraicValue F) :
    MergeResult F :=
  match merge ops op b c with
  | .Merged v => merge ops op a v
  | r => r

end AlgebraicMerger

/-- A concrete instantiation of the abstract float type with `Int`,
used to evaluate the engine on concrete inputs. -/
def intFloatOps : FloatOps Int :=
  { fadd := (· + ·)
    fmul := (· * ·)
    fmax := max
    fmin := min
    ofInt := id }

/-- Association-list lookup: the embedding of `HashMap::get`.  `HashMap`s are
embedded as key/value lists whose key lists are duplicate-free. -/
def alookup {κ α : Type} [DecidableEq κ] : List (κ × α) → κ → Option α
  | [], _ => none
  | (k, v) :: rest, key => if k = key then some v else alookup rest key

/-- Association-list insert-or-replace: the embedding of `HashMap::insert`. -/
def ainsert {κ α : Type} [DecidableEq κ] : List (κ × α) → κ → α → List (κ × α)
  | [], key, val => [(key, val)]
  | (k, v) :: rest, key, val =>
    if k = key then (k, val) :: rest else (k, v) :: ainsert rest key val

/-- The embedding of `HashMap::remove` (used for `active.remove(&tx_id)`). -/
def aremove {κ α : Type} [DecidableEq κ] (l : List (κ × α)) (key : κ) : List (κ × α) :=
  l.filter (fun e => e.1 ≠ key)

/-- The embedding of `HashMap::contains_key`. -/
def acontains {κ α : Type} [DecidableEq κ] (l : List (κ × α)) (key : κ) : Bool :=
  (alookup l key).isSome

/-- `Vec<String>::sort()` (Rust `String` order is lexicographic, as is Lean
`String` order). -/
def sortStrings (l : List String) : List String :=
  List.insertionSort (fun a b => a ≤ b) l

/-- `sort_by(|a, b| a.0.cmp(&b.0))` — stable sort on the first (table-name)
component. -/
def sortByTable {α : Type} (l : List (String × α)) : List (String × α) :=
  List.insertionSort (fun a b => a.1 ≤ b.1) l

/-- `Branch` from `rhizo_core/src/branch/branch.rs`.  The `head` `HashMap`
and the `fork_point` snapshot are embedded as association lists. -/
structure Branch where
  name : String
  head : List (String × Nat)
  created_at : Int
  parent_branch : Option String
  description : Option String
  fork_point : Option (List (String × Nat))
deriving DecidableEq

namespace Branch

/-- `Branch::get_table_version`. -/
def get_table_version (b : Branch) (table_name : String) : Option Nat :=
  alookup b.head table_name

/-- `Branch::set_table_version` — inserts or replaces a head entry. -/
def set_table_version (b : Branch) (table_name : String) (version : Nat) : Branch :=
  { b with head := ainsert b.head table_name version }

end Branch

/-- `BranchDiff` from `rhizo_core/src/branch/branch.rs`. -/
structure BranchDiff where
  source_branch : String
  target_branch : String
  unchanged : List String
  modified : List (String × Nat × Nat)
  added_in_source : List (String × Nat)
  added_in_target : List (String × Nat)
  has_conflicts : Bool
  source_only_changes : List (String × Nat × Nat)
  target_only_changes : List (String × Nat × Nat)
deriving DecidableEq

/-- The five per-source-table output lists accumulated by the main loop of
`BranchDiff::compute_with_base` (`added_in_target` is produced by a separate
loop over the target head). -/
structure DiffLists where
  unchanged : List String
  modified : List (String × Nat × Nat)
  added_in_source : List (String × Nat)
  source_only : List (String × Nat × Nat)
  target_only : List (String × Nat × Nat)

namespace BranchDiff

/-- The classification loop of `compute_with_base` over the source head:
unchanged / source-only / target-only / true-conflict / added-in-source,
consulting the fork-point `base` when versions differ.  (The Rust loop pushes
in iteration order; this recursion prepends, which is immaterial because every
output list is sorted afterwards.) -/
def diffScan (tgt : List (String × Nat)) (base : Option (List (String × Nat))) :
    List (String × Nat) → DiffLists
  | [] => ⟨[], [], [], [], []⟩
  | (table, src_version) :: rest =>
    let acc := diffScan tgt base rest
    match alookup tgt table with
    | some tgt_version =>
      if src_version = tgt_version then
        { acc with unchanged := table :: acc.unchanged }
      else
        match base with
        | some base_head =>
          match alookup base_head table with
          | some bv =>
            if src_version ≠ bv ∧ tgt_version = bv then
              { acc with source_only := (table, src_version, tgt_version) :: acc.source_only }
            else if tgt_version ≠ bv ∧ src_version = bv then
              { acc with target_only := (table, src_version, tgt_version) :: acc.target_only }
            else
              { acc with modified := (table, src_version, tgt_version) :: acc.modified }
          | none =>
            { acc with modified := (table, src_version, tgt_version) :: acc.modified }
        | none =>
          { acc with modified := (table, src_version, tgt_version) :: acc.modified }
    | none =>
      { acc with added_in_source := (table, src_version) :: acc.added_in_source }

/-- `BranchDiff::compute_with_base`: classify every table, sort every output
list by table name, and set `has_conflicts` iff the true-conflict list is
non-empty. -/
def compute_with_base (source target : Branch) (base : Option (List (String × Nat))) :
    BranchDiff :=
  let l := diffScan target.head base source.head
  let added_in_target := target.head.filter (fun e => !acontains source.head e.1)
  let modified := sortByTable l.modified
  { source_branch := source.name
    target_branch := target.name
    unchanged := sortStrings l.unchanged
    modified := modified
    added_in_source := sortByTable l.added_in_source
    added_in_target := sortByTable added_in_target
    has_conflicts := !modified.isEmpty
    source_only_changes := sortByTable l.source_only
    target_only_changes := sortByTable l.target_only }

/-- `BranchDiff::compute` — uses the source branch fork point as the base. -/
def compute (source target : Branch) : BranchDiff :=
  compute_with_base source target source.fork_point

/-- `BranchDiff::conflicting_tables`. -/
def conflicting_tables (d : BranchDiff) : List String :=
  d.modified.map (·.1)

end BranchDiff

/-- `BranchError` from `rhizo_core/src/branch/error.rs` (the file itself is
not under `src/`; the variants are reconstructed from their construction
sites in `manager.rs`). -/
inductive BranchError where
  | BranchNotFound : String → BranchError
  | BranchAlreadyExists : String → BranchError
  | CannotDeleteDefault : String → BranchError
  | InvalidBranchName : String → BranchError
  | MergeConflict : List String → BranchError
deriving DecidableEq

namespace BranchManager

/-- `BranchManager::merge_fast_forward`, as a pure transformation of the
target branch (loading the two branches and saving the merged target are
file I/O around this logic).  With a fork point: refuse on true conflicts,
apply source-only changes and added-in-source tables; without one: apply a
source version only when strictly greater than the target's current
version. -/
def merge_fast_forward (source target : Branch) : Except BranchError Branch :=
  if source.fork_point.isSome then
    let diff := BranchDiff.compute source target
    if diff.has_conflicts then
      .error (.MergeConflict diff.conflicting_tables)
    else
      let t1 := diff.source_only_changes.foldl
        (fun b e => b.set_table_version e.1 e.2.1) target
      let t2 := diff.added_in_source.foldl
        (fun b e => b.set_table_version e.1 e.2) t1
      .ok t2
  else
    .ok (source.head.foldl
      (fun b e =>
        if e.2 > (b.get_table_version e.1).getD 0
        then b.set_table_version e.1 e.2 else b)
      target)

end BranchManager

/-- `WriteGranularity` from `udr_core/src/transaction/types.rs`.  `Keys`
carries `key_columns` and `affected_keys` (the `serde_json::Value` keys are
embedded as strings; no modelled code inspects them). -/
inductive WriteGranularity where
  | WholeTable
  | Partitions : List String → WriteGranularity
  | Keys : List String → List String → WriteGranularity
deriving DecidableEq

/-- `TransactionStatus` from `udr_core/src/transaction/types.rs`
(`rhizo_core`'s own `transaction/types.rs` is not under `src/`; its uses in
`manager.rs` and `recovery.rs` match this definition). -/
inductive TransactionStatus where
  | Active
  | Preparing
  | Committed
  | Aborted : String → TransactionStatus
deriving DecidableEq

/-- `TableWrite` from `udr_core/src/transaction/types.rs`. -/
structure TableWrite where
  table_name : String
  new_version : Nat
  chunk_hashes : List String
  schema_hash : Option String
  granularity : WriteGranularity
  branch : Option String
deriving DecidableEq

/-- `TransactionRecord` from `udr_core/src/transaction/types.rs` (the unused
`extensions : Option<serde_json::Value>` escape hatch is omitted). -/
structure TransactionRecord where
  tx_id : Nat
  epoch_id : Nat
  started_at : Int
  committed_at : Option Int
  read_snapshot : List (String × Nat)
  writes : List TableWrite
  status : TransactionStatus
  branch : String
  metadata : List (String × String)
  format_version : Nat
deriving DecidableEq

namespace TransactionRecord

/-- `TransactionRecord::is_active`. -/
def is_active (tx : TransactionRecord) : Bool :=
  match tx.status with
  | .Active => true
  | _ => false

/-- `TransactionRecord::is_preparing`. -/
def is_preparing (tx : TransactionRecord) : Bool :=
  match tx.status with
  | .Preparing => true
  | _ => false

/-- `TransactionRecord::is_committed`. -/
def is_committed (tx : TransactionRecord) : Bool :=
  match tx.status with
  | .Committed => true
  | _ => false

/-- `TransactionRecord::is_aborted`. -/
def is_aborted (tx : TransactionRecord) : Bool :=
  match tx.status with
  | .Aborted _ => true
  | _ => false

/-- `TransactionRecord::mark_committed` — the wall-clock commit time is passed
in explicitly. -/
def mark_committed (tx : TransactionRecord) (now : Int) : TransactionRecord :=
  { tx with status := .Committed, committed_at := some now }

/-- `TransactionRecord::mark_aborted`. -/
def mark_aborted (tx : TransactionRecord) (reason : String) : TransactionRecord :=
  { tx with status := .Aborted reason }

end TransactionRecord

/-- `Conflict` from `udr_core/src/transaction/conflict.rs`. -/
structure Conflict where
  tables : List String
  tx1_id : Nat
  tx2_id : Nat
  description : String
deriving DecidableEq

/-- `Conflict::new` (the `{:?}` debug rendering of the table list is
approximated with `toString`; nothing modelled inspects the description). -/
def Conflict.new (tables : List String) (tx1_id tx2_id : Nat) : Conflict :=
  { tables := tables
    tx1_id := tx1_id
    tx2_id := tx2_id
    description := "Write-write conflict on tables " ++ toString tables
      ++ " between tx " ++ toString tx1_id ++ " and tx " ++ toString tx2_id }

namespace TableLevelConflictDetector

/-- `TableLevelConflictDetector::detect`: the two transactions conflict iff
they write a common table.  (`HashSet::intersection` iterates in unspecified
order; it is embedded as dedup-then-filter over the written-table lists.) -/
def detect (tx1 tx2 : TransactionRecord) : Option Conflict :=
  let tables1 := (tx1.writes.map (·.table_name)).dedup
  let tables2 := (tx2.writes.map (·.table_name)).dedup
  let conflicts := tables1.filter (fun t => tables2.contains t)
  if conflicts.isEmpty then none
  else some (Conflict.new conflicts tx1.tx_id tx2.tx_id)

end TableLevelConflictDetector

namespace PartitionLevelConflictDetector

/-- Non-empty intersection test for two partition lists
(`parts1.intersection(&parts2).next().is_some()`). -/
def partitionsOverlap (p1 p2 : List String) : Bool :=
  p1.any (fun s => p2.contains s)

/-- One iteration of the nested loop body of
`PartitionLevelConflictDetector::detect`: `none` means the Rust loop
continues (different tables, or disjoint partition sets). -/
def detectPair (tx1_id tx2_id : Nat) (write1 write2 : TableWrite) : Option Conflict :=
  if write1.table_name ≠ write2.table_name then none
  else
    match write1.granularity, write2.granularity with
    | .WholeTable, .WholeTable =>
      some (Conflict.new [write1.table_name] tx1_id tx2_id)
    | .WholeTable, .Partitions _ =>
      some (Conflict.new [write1.table_name] tx1_id tx2_id)
    | .Partitions _, .WholeTable =>
      some (Conflict.new [write1.table_name] tx1_id tx2_id)
    | .Partitions p1, .Partitions p2 =>
      if partitionsOverlap p1 p2 then
        some (Conflict.new [write1.table_name] tx1_id tx2_id)
      else none
    | _, _ =>
      some (Conflict.new [write1.table_name] tx1_id tx2_id)

/-- `PartitionLevelConflictDetector::detect`: scan all write pairs in order
and return the first collision. -/
def detect (tx1 tx2 : TransactionRecord) : Option Conflict :=
  tx1.writes.findSome? (fun write1 =>
    tx2.writes.findSome? (fun write2 =>
      detectPair tx1.tx_id tx2.tx_id write1 write2))

end PartitionLevelConflictDetector

/-- Modelled from the spec: `rhizo_core/src/distributed/vector_clock.rs` is
not under `src/`.  Per §3 of the spec, a vector clock is a total map
`NodeId → u64` whose missing keys read as 0; `NodeId` wraps a string.
`commit_local` calls `clock.tick(node_id)` to "increment the clock at this
node". -/
structure VectorClock where
  clocks : List (String × Nat)
deriving DecidableEq

namespace VectorClock

/-- Modelled from the spec: read a node's logical time, missing keys read
as 0. -/
def get (c : VectorClock) (node : String) : Nat :=
  (alookup c.clocks node).getD 0

/-- Modelled from the spec: increment this node's entry by one. -/
def tick (c : VectorClock) (node : String) : VectorClock :=
  ⟨ainsert c.clocks node (c.get node + 1)⟩

end VectorClock

/-- `AlgebraicOperation` from `rhizo_core/src/distributed/local_commit.rs`. -/
structure AlgebraicOperation (F : Type) where
  key : String
  op_type : OpType
  value : AlgebraicValue F
deriving DecidableEq

/-- `AlgebraicOperation::is_algebraic`. -/
def AlgebraicOperation.is_algebraic {F : Type} (op : AlgebraicOperation F) : Bool :=
  op.op_type.is_conflict_free

/-- `AlgebraicTransaction` from `rhizo_core/src/distributed/local_commit.rs`. -/
structure AlgebraicTransaction (F : Type) where
  operations : List (AlgebraicOperation F)
  metadata : List (String × String)
deriving DecidableEq

namespace AlgebraicTransaction

variable {F : Type}

/-- `AlgebraicTransaction::is_empty`. -/
def is_empty (tx : AlgebraicTransaction F) : Bool :=
  tx.operations.isEmpty

/-- `AlgebraicTransaction::is_fully_algebraic`. -/
def is_fully_algebraic (tx : AlgebraicTransaction F) : Bool :=
  tx.operations.all (·.is_algebraic)

/-- `AlgebraicTransaction::non_algebraic_operations`. -/
def non_algebraic_operations (tx : AlgebraicTransaction F) : List (String × OpType) :=
  (tx.operations.filter (fun op => !op.is_algebraic)).map (fun op => (op.key, op.op_type))

end AlgebraicTransaction

/-- `VersionedUpdate` from `rhizo_core/src/distributed/local_commit.rs`. -/
structure VersionedUpdate (F : Type) where
  operations : List (AlgebraicOperation F)
  clock : VectorClock
  origin_node : String
  update_id : Option String
deriving DecidableEq

/-- `LocalCommitError` from `rhizo_core/src/distributed/local_commit.rs`. -/
inductive LocalCommitError where
  | NonAlgebraic : List String → String → LocalCommitError
  | EmptyTransaction
  | MergeFailed : String → String → LocalCommitError
  | TypeMismatch : String → String → String → LocalCommitError
deriving DecidableEq

namespace LocalCommitProtocol

/-- `LocalCommitProtocol::commit_local`.  The `&mut VectorClock` argument is
embedded by returning the clock alongside the result: the clock is ticked
exactly on the success path and returned unchanged on either error path. -/
def commit_local {F : Type} (tx : AlgebraicTransaction F) (node_id : String)
    (clock : VectorClock) :
    Except LocalCommitError (VersionedUpdate F) × VectorClock :=
  if tx.is_empty then
    (.error .EmptyTransaction, clock)
  else if !tx.is_fully_algebraic then
    let non_alg := tx.non_algebraic_operations
    let keys := non_alg.map (·.1)
    let ops := non_alg.map (fun e => e.2.display)
    (.error (.NonAlgebraic keys
      ("Operations " ++ String.intercalate ", " ops ++ " require coordination")), clock)
  else
    let clock := clock.tick node_id
    (.ok ⟨tx.operations, clock, node_id, none⟩, clock)

end LocalCommitProtocol

/-- `TransactionError` from `rhizo_core/src/transaction/error.rs` (the
`Io`/`Json` payloads, foreign error types in Rust, are embedded as their
message strings). -/
inductive TransactionError where
  | Io : String → TransactionError
  | Json : String → TransactionError
  | TransactionNotFound : Nat → TransactionError
  | TransactionNotActive : Nat → TransactionError
  | AlreadyCommitted : Nat → TransactionError
  | AlreadyAborted : Nat → TransactionError
  | WriteConflict : List String → TransactionError
  | SnapshotConflict : String → Nat → Nat → TransactionError
  | EpochNotActive : Nat → TransactionError
  | EpochNotFound : Nat → TransactionError
  | EpochFull : Nat → Nat → TransactionError
  | InvalidState : String → String → TransactionError
  | CatalogError : String → TransactionError
  | BranchError : String → TransactionError
  | RecoveryError : String → TransactionError
  | Timeout : Nat → Nat → TransactionError
  | NestedTransaction
  | InvalidConfig : String → TransactionError
  | LockError : String → TransactionError
deriving DecidableEq

/-- The state a `TransactionManager` operates on, projected from its in-memory
maps and the file-system state it reaches through the catalog, the optional
branch manager, and the transaction log.  `catalog` maps each table to its
latest committed version number (an absent table has no versions);
`branch_manager`, when configured, maps branch names to their head maps;
`epochs` maps epoch ids to the `committed_count` of their metadata (the only
metadata field `commit` touches). -/
structure ManagerState where
  active_transactions : List (Nat × TransactionRecord)
  recent_committed : List TransactionRecord
  max_recent_committed : Nat
  catalog : List (String × Nat)
  branch_manager : Option (List (String × List (String × Nat)))
  log : List (Nat × TransactionRecord)
  epochs : List (Nat × Nat)
deriving DecidableEq

namespace TransactionManager

/-- The first loop of `TransactionManager::check_conflicts`: scan the
recent-committed buffer, skipping records with `tx_id >= tx.tx_id`, and fail
with `WriteConflict` on the first detector hit. -/
def checkRecent (detect : TransactionRecord → TransactionRecord → Option Conflict)
    (tx : TransactionRecord) :
    List TransactionRecord → Except TransactionError Unit
  | [] => .ok ()
  | committed_tx :: rest =>
    if committed_tx.tx_id ≥ tx.tx_id then checkRecent detect tx rest
    else
      match detect tx committed_tx with
      | some conflict => .error (.WriteConflict conflict.tables)
      | none => checkRecent detect tx rest

/-- The second loop of `check_conflicts`: scan the other active transactions,
skipping this transaction and any that is not `Preparing`. -/
def checkActive (detect : TransactionRecord → TransactionRecord → Option Conflict)
    (tx : TransactionRecord) :
    List (Nat × TransactionRecord) → Except TransactionError Unit
  | [] => .ok ()
  | (_, other_tx) :: rest =>
    if other_tx.tx_id = tx.tx_id then checkActive detect tx rest
    else if !other_tx.is_preparing then checkActive detect tx rest
    else
      match detect tx other_tx with
      | some conflict => .error (.WriteConflict conflict.tables)
      | none => checkActive detect tx rest

/-- `TransactionManager::check_conflicts`. -/
def check_conflicts (detect : TransactionRecord → TransactionRecord → Option Conflict)
    (s : ManagerState) (tx : TransactionRecord) : Except TransactionError Unit := do
  checkRecent detect tx s.recent_committed
  checkActive detect tx s.active_transactions

/-- The per-table current-version fetch inside `validate_snapshot`: the
branch head when a branch manager is configured (a missing branch surfaces
as a `BranchError`), else the catalog's latest version with errors mapped to
`None` (`.map(|v| Some(v.version)).unwrap_or(None)`). -/
def currentVersion (s : ManagerState) (branch table : String) :
    Except TransactionError (Option Nat) :=
  match s.branch_manager with
  | some branches =>
    match alookup branches branch with
    | some head => .ok (alookup head table)
    | none => .error (.BranchError ("Branch not found: " ++ branch))
  | none => .ok (alookup s.catalog table)

/-- The loop of `TransactionManager::validate_snapshot` over the read
snapshot: fail with `SnapshotConflict` at the first entry whose current
version exists and differs from the recorded read version. -/
def validateSnapshotLoop (s : ManagerState) (branch : String) :
    List (String × Nat) → Except TransactionError Unit
  | [] => .ok ()
  | (table, read_version) :: rest => do
    let current_version ← currentVersion s branch table
    match current_version with
    | some current =>
      if current ≠ read_version then
        .error (.SnapshotConflict table read_version current)
      else validateSnapshotLoop s branch rest
    | none => validateSnapshotLoop s branch rest

/-- `TransactionManager::validate_snapshot`. -/
def validate_snapshot (s : ManagerState) (tx : TransactionRecord) :
    Except TransactionError Unit :=
  validateSnapshotLoop s tx.branch tx.read_snapshot

/-- `TransactionManager::apply_writes`: for each write, the catalog's
`commit_next_version` assigns `latest + 1` under the per-table lock; the
actually-assigned versions are collected into `committed_versions`. -/
def applyWritesLoop (catalog committed_versions : List (String × Nat)) :
    List TableWrite → List (String × Nat) × List (String × Nat)
  | [] => (catalog, committed_versions)
  | write :: rest =>
    let actual_version := (alookup catalog write.table_name).getD 0 + 1
    applyWritesLoop (ainsert catalog write.table_name actual_version)
      (ainsert committed_versions write.table_name actual_version) rest

/-- `BranchManager::update_head` as seen from the transaction manager: load
the branch (a missing branch is a `BranchError`), set the table version and
save. -/
def bmUpdateHead (branches : List (String × List (String × Nat)))
    (branch table : String) (version : Nat) :
    Except TransactionError (List (String × List (String × Nat))) :=
  match alookup branches branch with
  | some head => .ok (ainsert branches branch (ainsert head table version))
  | none => .error (.BranchError ("Branch not found: " ++ branch))

/-- The loop of `TransactionManager::update_branch_heads`: each write moves
its target branch's head (the write's override branch or the transaction's
branch) to the actually-assigned version, falling back to the write's
pre-computed version. -/
def updateHeadsLoop (tx : TransactionRecord) (committed_versions : List (String × Nat))
    (branches : List (String × List (String × Nat))) :
    List TableWrite → Except TransactionError (List (String × List (String × Nat)))
  | [] => .ok branches
  | write :: rest => do
    let branch := write.branch.getD tx.branch
    let version := (alookup committed_versions write.table_name).getD write.new_version
    let branches ← bmUpdateHead branches branch write.table_name version
    updateHeadsLoop tx committed_versions branches rest

/-- `TransactionManager::update_branch_heads` (a no-op when no branch manager
is configured). -/
def update_branch_heads (s : ManagerState) (tx : TransactionRecord)
    (committed_versions : List (String × Nat)) :
    Except TransactionError ManagerState :=
  match s.branch_manager with
  | none => .ok s
  | some branches => do
    let branches ← updateHeadsLoop tx committed_versions branches tx.writes
    .ok { s with branch_manager := some branches }

/-- The recent-committed push with bounded eviction: `push_back` then pop
from the front while over `max_recent_committed`. -/
def pushRecent (recent : List TransactionRecord) (max_recent : Nat)
    (tx : TransactionRecord) : List TransactionRecord :=
  let r := recent ++ [tx]
  r.drop (r.length - max_recent)

/-- `TransactionManager::commit`, embedded as a pure state transformer (the
commit-lock mutex serializes this critical section; `now` is the wall-clock
time `mark_committed` records; `detect` is the pluggable conflict detector).
The step order mirrors the source: look up the active record, check it is
active, run the read-set conflict check, validate the snapshot, mark
committed, apply writes through the catalog, move branch heads, persist the
record, bump the epoch's commit counter, push into the recent-committed
buffer, and drop the transaction from the active map. -/
def commit (detect : TransactionRecord → TransactionRecord → Option Conflict)
    (now : Int) (s : ManagerState) (tx_id : Nat) :
    Except TransactionError ManagerState := do
  let tx ← match alookup s.active_transactions tx_id with
    | some t => Except.ok t
    | none => Except.error (.TransactionNotFound tx_id)
  if !tx.is_active then
    Except.error (.TransactionNotActive tx_id)
  else do
    check_conflicts detect s tx
    validate_snapshot s tx
    let tx := tx.mark_committed now
    let (catalog, committed_versions) := applyWritesLoop s.catalog [] tx.writes
    let s := { s with catalog := catalog }
    let s ← update_branch_heads s tx committed_versions
    let s := { s with log := ainsert s.log tx.tx_id tx }
    let committed_count ← match alookup s.epochs tx.epoch_id with
      | some c => Except.ok c
      | none => Except.error (.EpochNotFound tx.epoch_id)
    let s := { s with epochs := ainsert s.epochs tx.epoch_id (committed_count + 1) }
    let s := { s with
      recent_committed := pushRecent s.recent_committed s.max_recent_committed tx }
    .ok { s with active_transactions := aremove s.active_transactions tx_id }

end TransactionManager

/-- `PendingCommit` from `rhizo_core/src/catalog/file_catalog.rs`. -/
structure PendingCommit where
  intent_id : String
  table_name : String
  chunk_hashes : List String
  created_at : Int
deriving DecidableEq

/-- One file in the catalog's `.pending/` directory as
`recover_pending_commits` sees it: a file without the `.json` extension
(skipped and kept), a `.json` file that fails to read or parse (removed
silently), or a parsed intent.  The string payloads carry the file name /
raw contents and are never inspected. -/
inductive IntentFile where
  | nonJson : String → IntentFile
  | corrupt : String → IntentFile
  | valid : PendingCommit → IntentFile
deriving DecidableEq

/-- Per-table catalog state, projected to what `is_committed` reads: the
`latest` pointer (0 when the `latest` file is absent) and the chunk hashes
of the latest committed version. -/
structure CatalogTableState where
  latest : Nat
  latest_chunk_hashes : List String
deriving DecidableEq

/-- The on-disk state of a `FileCatalog` base directory: the table
directories and the `.pending/` intent directory. -/
structure CatalogState where
  tables : List (String × CatalogTableState)
  pending : List IntentFile
deriving DecidableEq

namespace FileCatalog

/-- `FileCatalog::is_committed`: whether the chunk hashes are exactly those
of the table's current latest version. -/
def is_committed (c : CatalogState) (table_name : String)
    (chunk_hashes : List String) : Bool :=
  match alookup c.tables table_name with
  | none => false
  | some t =>
    if t.latest = 0 then false
    else t.latest_chunk_hashes = chunk_hashes

/-- The directory scan of `recover_pending_commits`: skip (and keep)
non-`.json` files, remove corrupt intents silently, remove stale intents
whose commit completed, and report-and-remove orphaned intents.  Returns the
orphan list and the files left in `.pending/`. -/
def recoverScan (c : CatalogState) :
    List IntentFile → List PendingCommit × List IntentFile
  | [] => ([], [])
  | f :: rest =>
    match f with
    | .nonJson name =>
      let (orphans, keep) := recoverScan c rest
      (orphans, .nonJson name :: keep)
    | .corrupt _ => recoverScan c rest
    | .valid pending =>
      if is_committed c pending.table_name pending.chunk_hashes then
        recoverScan c rest
      else
        let (orphans, keep) := recoverScan c rest
        (pending :: orphans, keep)

/-- `FileCatalog::recover_pending_commits`: scan `.pending/`, returning the
orphaned intents and the catalog state left on disk. -/
def recover_pending_commits (c : CatalogState) :
    List PendingCommit × CatalogState :=
  let (orphans, keep) := recoverScan c c.pending
  (orphans, { c with pending := keep })

end FileCatalog

/-- One epoch directory of the transaction log as recovery sees it: the
epoch id, whether the `_committed` marker file is present
(`is_epoch_committed`), and the transaction ids found in the directory
(`list_transactions_in_epoch`). -/
structure EpochEntry where
  epoch_id : Nat
  committed : Bool
  tx_ids : List Nat
deriving DecidableEq

/-- The on-disk transaction log: the epoch directories in scan order and the
persisted transaction records by id. -/
structure LogState where
  epochs : List EpochEntry
  txs : List (Nat × TransactionRecord)
deriving DecidableEq

/-- `RecoveryReport` from `rhizo_core/src/transaction/recovery.rs`. -/
structure RecoveryReport where
  last_committed_epoch : Option Nat
  replayed : List Nat
  rolled_back : List Nat
  already_aborted : List Nat
  already_committed : List Nat
  warnings : List String
  errors : List String
  epochs_scanned : Nat
  transactions_scanned : Nat
deriving DecidableEq

/-- `RecoveryReport::new`. -/
def RecoveryReport.new : RecoveryReport :=
  { last_committed_epoch := none
    replayed := []
    rolled_back := []
    already_aborted := []
    already_committed := []
    warnings := []
    errors := []
    epochs_scanned := 0
    transactions_scanned := 0 }

/-- `RecoveryDecision` from `rhizo_core/src/transaction/recovery.rs`. -/
inductive RecoveryDecision where
  | Keep
  | Rollback
  | AlreadyAborted
  | Replay
deriving DecidableEq

namespace RecoveryManager

/-- `RecoveryManager::decide`. -/
def decide (tx : TransactionRecord) : RecoveryDecision :=
  match tx.status with
  | .Committed => .Keep
  | .Aborted _ => .AlreadyAborted
  | .Active => .Rollback
  | .Preparing => .Rollback

/-- The per-transaction body of `RecoveryManager::scan_epoch`: count the
transaction, report a read failure as an error, otherwise classify it by
`decide` (warning when a pending transaction sits in a committed epoch). -/
def scanTx (l : LogState) (epoch_id : Nat) (epoch_committed : Bool)
    (report : RecoveryReport) (tx_id : Nat) : RecoveryReport :=
  let report := { report with
    transactions_scanned := report.transactions_scanned + 1 }
  match alookup l.txs tx_id with
  | none =>
    { report with errors := report.errors ++ ["Failed to read tx " ++ toString tx_id] }
  | some tx =>
    match decide tx with
    | .Keep =>
      { report with already_committed := report.already_committed ++ [tx_id] }
    | .AlreadyAborted =>
      { report with already_aborted := report.already_aborted ++ [tx_id] }
    | .Rollback =>
      let report :=
        if epoch_committed then
          { report with warnings := report.warnings
            ++ ["Transaction " ++ toString tx_id ++ " in committed epoch "
                ++ toString epoch_id ++ " is not committed"] }
        else report
      { report with rolled_back := report.rolled_back ++ [tx_id] }
    | .Replay =>
      { report with replayed := report.replayed ++ [tx_id] }

/-- `RecoveryManager::scan_epoch`. -/
def scan_epoch (l : LogState) (e : EpochEntry) (report : RecoveryReport) :
    RecoveryReport :=
  e.tx_ids.foldl (scanTx l e.epoch_id e.committed) report

/-- `RecoveryManager::recover` (read-only): scan the epochs oldest-to-newest,
tracking the last committed epoch and classifying every transaction. -/
def recover (l : LogState) : RecoveryReport :=
  let report := { RecoveryReport.new with epochs_scanned := l.epochs.length }
  l.epochs.foldl
    (fun report e =>
      let report :=
        if e.committed then { report with last_committed_epoch := some e.epoch_id }
        else report
      scan_epoch l e report)
    report

/-- The rollback body of `RecoveryManager::recover_and_apply`: re-read the
transaction; if still `Active`/`Preparing`, mark it aborted and persist. -/
def applyRollback (txs : List (Nat × TransactionRecord)) (report : RecoveryReport)
    (tx_id : Nat) : List (Nat × TransactionRecord) × RecoveryReport :=
  match alookup txs tx_id with
  | some tx =>
    if tx.is_active || tx.is_preparing then
      (ainsert txs tx_id (tx.mark_aborted "Recovery: pending transaction rolled back"),
       report)
    else (txs, report)
  | none =>
    (txs, { report with errors := report.errors
      ++ ["Failed to read tx " ++ toString tx_id ++ " for rollback"] })

/-- `RecoveryManager::recover_and_apply`: run `recover`, then mark every
transaction in its `rolled_back` list as aborted on disk. -/
def recover_and_apply (l : LogState) : RecoveryReport × LogState :=
  let report := recover l
  let (txs, report) := report.rolled_back.foldl
    (fun (p : List (Nat × TransactionRecord) × RecoveryReport) tx_id =>
      applyRollback p.1 p.2 tx_id)
    (l.txs, report)
  (report, { l with txs := txs })

end RecoveryManager

/-- `TransactionRecord::new` (the wall-clock start time is passed in
explicitly). -/
def TransactionRecord.new (tx_id epoch_id : Nat) (branch : String) (now : Int) :
    TransactionRecord :=
  { tx_id := tx_id
    epoch_id := epoch_id
    started_at := now
    committed_at := none
    read_snapshot := []
    writes := []
    status := .Active
    branch := branch
    metadata := []
    format_version := 1 }

/-- `TableWrite::new` — whole-table granularity, no schema hash, no branch
override. -/
def TableWrite.new (table_name : String) (new_version : Nat)
    (chunk_hashes : List String) : TableWrite :=
  { table_name := table_name
    new_version := new_version
    chunk_hashes := chunk_hashes
    schema_hash := none
    granularity := .WholeTable
    branch := none }

/-- Concrete source branch for the merge-monotonicity counterexample: a
branch whose fork point recorded `users` at version 5 but whose own head was
later moved back to version 2. -/
def ffSourceCE : Branch :=
  { name := "feature"
    head := [("users", 2)]
    created_at := 0
    parent_branch := some "main"
    description := none
    fork_point := some [("users", 5)] }

/-- Concrete target branch for the merge-monotonicity counterexample: still
at the fork-point version 5 of `users`. -/
def ffTargetCE : Branch :=
  { name := "main"
    head := [("users", 5)]
    created_at := 0
    parent_branch := none
    description := none
    fork_point := none }

/-- Concrete transaction writing `users` with `WholeTable` granularity, for
the partition-detector counterexample. -/
def pcTxWholeCE : TransactionRecord :=
  { TransactionRecord.new 1 1 "main" 0 with
    writes := [TableWrite.new "users" 1 ["chunk"]] }

/-- Concrete transaction writing `users` with an empty `Partitions` list
(it names no partition at all), for the partition-detector counterexample. -/
def pcTxPartsCE : TransactionRecord :=
  { TransactionRecord.new 2 1 "main" 0 with
    writes := [{ TableWrite.new "users" 1 ["chunk"] with
      granularity := .Partitions [] }] }

/-- Concrete catalog state for the recovery-idempotence counterexample: one
well-formed pending intent whose chunk hashes were never committed into any
table version (the table does not exist), i.e. an orphaned intent. -/
def recoveryCatalogCE : CatalogState :=
  { tables := []
    pending := [.valid
      { intent_id := "crash-sim-001"
        table_name := "orphaned_table"
        chunk_hashes := ["orphan_chunk_1", "orphan_chunk_2"]
        created_at := 1234567890 }] }

/-- Decidable equality for `Except`, so concrete runs of the embedded
fallible functions can be checked by evaluation. -/
instance {ε α : Type} [DecidableEq ε] [DecidableEq α] : DecidableEq (Except ε α) :=
  fun a b =>
    match a, b with
    | .ok x, .ok y =>
      if h : x = y then isTrue (h ▸ rfl) else isFalse (fun hc => h (Except.ok.inj hc))
    | .error x, .error y =>
      if h : x = y then isTrue (h ▸ rfl) else isFalse (fun hc => h (Except.error.inj hc))
    | .ok _, .error _ => isFalse (fun hc => Except.noConfusion hc)
    | .error _, .ok _ => isFalse (fun hc => Except.noConfusion hc)

/-- A conflict detector that reports no conflicts, for exercising the
snapshot-validation path of `commit` in isolation. -/
def staleDetect : TransactionRecord → TransactionRecord → Option Conflict :=
  fun _ _ => none

/-- A transaction that read `users` at version 0. -/
def staleTxCE : TransactionRecord :=
  { TransactionRecord.new 1 1 "main" 0 with read_snapshot := [("users", 0)] }

/-- A manager state in which `users` has meanwhile moved to version 1, making
`staleTxCE`'s snapshot stale. -/
def staleStateCE : ManagerState :=
  { active_transactions := [(1, staleTxCE)]
    recent_committed := []
    max_recent_committed := 100
    catalog := [("users", 1)]
    branch_manager := none
    log := []
    epochs := [(1, 0)] }


/-- `checked_add` commutes, since `+` on `Int` does. -/
theorem checkedAdd_comm (a b : Int) : checkedAdd a b = checkedAdd b a := by
  unfold checkedAdd
  rw [Int.add_comm b a]

theorem checkedMul_comm (a b : Int) : checkedMul a b = checkedMul b a := by
  unfold checkedMul
  rw [Int.mul_comm b a]

/-- C7: `Null` is a two-sided identity for `AlgebraicMerger::merge` — merging
any value with `Null`, on either side and under every operation type, yields
`Merged` with the other value unchanged. -/
theorem merge_null_identity {F : Type} (ops : FloatOps F) (op : OpType)
    (v : AlgebraicValue F) :
    AlgebraicMerger.merge ops op .Null v = .Merged v ∧
    AlgebraicMerger.merge ops op v .Null = .Merged v := by
  constructor
  · simp [AlgebraicMerger.merge, AlgebraicValue.is_null]
  · cases v <;> simp [AlgebraicMerger.merge, AlgebraicValue.is_null]

/-- C2 counterexample: `AbelianAdd` near the `i64` bounds is not associative —
`(i64::MAX + 1) + (-1)` overflows to `Conflict` while `i64::MAX + (1 + (-1))`
merges, so the two association orders disagree. -/
theorem merge_assoc_i64_counterexample :
    AlgebraicMerger.mergeAssocL intFloatOps .AbelianAdd
        (.Integer 9223372036854775807) (.Integer 1) (.Integer (-1)) ≠
      AlgebraicMerger.mergeAssocR intFloatOps .AbelianAdd
        (.Integer 9223372036854775807) (.Integer 1) (.Integer (-1)) := by
  decide

/-- C1: `AlgebraicMerger::merge` is commutative for every conflict-free
operation type: whenever both orders merge successfully (and the abstract
float primitives are commutative), they produce the same value. -/
theorem merge_commutative {F : Type} (ops : FloatOps F)
    (hadd : ∀ x y, ops.fadd x y = ops.fadd y x)
    (hmul : ∀ x y, ops.fmul x y = ops.fmul y x)
    (hmax : ∀ x y, ops.fmax x y = ops.fmax y x)
    (hmin : ∀ x y, ops.fmin x y = ops.fmin y x)
    (op : OpType) (hop : op.is_conflict_free = true)
    (a b v₁ v₂ : AlgebraicValue F)
    (h₁ : AlgebraicMerger.merge ops op a b = .Merged v₁)
    (h₂ : AlgebraicMerger.merge ops op b a = .Merged v₂) :
    v₁ = v₂ := by
  cases op <;> simp only [OpType.is_conflict_free, Bool.false_eq_true] at hop <;>
    cases a <;> cases b <;>
    simp_all [AlgebraicMerger.merge, AlgebraicMerger.merge_max,
      AlgebraicMerger.merge_min, AlgebraicMerger.merge_union,
      AlgebraicMerger.merge_intersect, AlgebraicMerger.merge_add,
      AlgebraicMerger.merge_multiply, AlgebraicValue.is_null,
      OpType.is_conflict_free, checkedAdd_comm, checkedMul_comm,
      max_comm, min_comm, Finset.union_comm, Finset.inter_comm,
      Bool.or_comm, Bool.and_comm] <;>
    split at h₁ <;> split at h₂ <;> simp_all

set_option maxHeartbeats 1000000 in
theorem mergeAssoc_max {F : Type} (ops : FloatOps F)
    (hmaxA : ∀ x y z, ops.fmax (ops.fmax x y) z = ops.fmax x (ops.fmax y z))
    (hofmax : ∀ m n : Int, ops.ofInt (max m n) = ops.fmax (ops.ofInt m) (ops.ofInt n))
    (a b c v w : AlgebraicValue F)
    (hL : AlgebraicMerger.mergeAssocL ops .SemilatticeMax a b c = .Merged v)
    (hR : AlgebraicMerger.mergeAssocR ops .SemilatticeMax a b c = .Merged w) :
    v = w := by
  cases a <;> cases b <;> cases c <;>
    simp_all [AlgebraicMerger.mergeAssocL, AlgebraicMerger.mergeAssocR,
      AlgebraicMerger.merge, AlgebraicMerger.merge_max, AlgebraicValue.is_null,
      OpType.is_conflict_free, max_assoc, Bool.or_assoc]

set_option maxHeartbeats 1000000 in
theorem mergeAssoc_min {F : Type} (ops : FloatOps F)
    (hminA : ∀ x y z, ops.fmin (ops.fmin x y) z = ops.fmin x (ops.fmin y z))
    (hofmin : ∀ m n : Int, ops.ofInt (min m n) = ops.fmin (ops.ofInt m) (ops.ofInt n))
    (a b c v w : AlgebraicValue F)
    (hL : AlgebraicMerger.mergeAssocL ops .SemilatticeMin a b c = .Merged v)
    (hR : AlgebraicMerger.mergeAssocR ops .SemilatticeMin a b c = .Merged w) :
    v = w := by
  cases a <;> cases b <;> cases c <;>
    simp_all [AlgebraicMerger.mergeAssocL, AlgebraicMerger.mergeAssocR,
      AlgebraicMerger.merge, AlgebraicMerger.merge_min, AlgebraicValue.is_null,
      OpType.is_conflict_free, min_assoc, Bool.and_assoc]

set_option maxHeartbeats 1000000 in
theorem mergeAssoc_union {F : Type} (ops : FloatOps F)
    (a b c v w : AlgebraicValue F)
    (hL : AlgebraicMerger.mergeAssocL ops .SemilatticeUnion a b c = .Merged v)
    (hR : AlgebraicMerger.mergeAssocR ops .SemilatticeUnion a b c = .Merged w) :
    v = w := by
  cases a <;> cases b <;> cases c <;>
    simp_all [AlgebraicMerger.mergeAssocL, AlgebraicMerger.mergeAssocR,
      AlgebraicMerger.merge, AlgebraicMerger.merge_union, AlgebraicValue.is_null,
      OpType.is_conflict_free, Finset.union_assoc, Bool.or_assoc]

set_option maxHeartbeats 1000000 in
theorem mergeAssoc_intersect {F : Type} (ops : FloatOps F)
    (a b c v w : AlgebraicValue F)
    (hL : AlgebraicMerger.mergeAssocL ops .SemilatticeIntersect a b c = .Merged v)
    (hR : AlgebraicMerger.mergeAssocR ops .SemilatticeIntersect a b c = .Merged w) :
    v = w := by
  cases a <;> cases b <;> cases c <;>
    simp_all [AlgebraicMerger.mergeAssocL, AlgebraicMerger.mergeAssocR,
      AlgebraicMerger.merge, AlgebraicMerger.merge_intersect, AlgebraicValue.is_null,
      OpType.is_conflict_free, Finset.inter_assoc, Bool.and_assoc]

theorem isNull_iff {F : Type} (v : AlgebraicValue F) :
    v.is_null = true ↔ v = .Null := by
  cases v <;> simp [AlgebraicValue.is_null]

set_option maxHeartbeats 2000000 in
theorem mergeAssoc_add {F : Type} (ops : FloatOps F)
    (haddA : ∀ x y z, ops.fadd (ops.fadd x y) z = ops.fadd x (ops.fadd y z))
    (hofadd : ∀ m n : Int, ops.ofInt (m + n) = ops.fadd (ops.ofInt m) (ops.ofInt n))
    (a b c v w : AlgebraicValue F)
    (hL : AlgebraicMerger.mergeAssocL ops .AbelianAdd a b c = .Merged v)
    (hR : AlgebraicMerger.mergeAssocR ops .AbelianAdd a b c = .Merged w) :
    v = w := by
  cases a <;> cases b <;> cases c <;>
    simp_all [AlgebraicMerger.mergeAssocL, AlgebraicMerger.mergeAssocR,
      AlgebraicMerger.merge, AlgebraicMerger.merge_add, isNull_iff,
      OpType.is_conflict_free, checkedAdd, i64Min, i64Max, Int.add_assoc] <;>
    (try split_ifs at hL hR) <;>
    simp_all [AlgebraicMerger.mergeAssocL, AlgebraicMerger.mergeAssocR,
      AlgebraicMerger.merge, AlgebraicMerger.merge_add, isNull_iff,
      OpType.is_conflict_free, checkedAdd, i64Min, i64Max, Int.add_assoc] <;>
    (try split_ifs at hL hR) <;>
    simp_all [AlgebraicMerger.mergeAssocL, AlgebraicMerger.mergeAssocR,
      AlgebraicMerger.merge, AlgebraicMerger.merge_add, isNull_iff,
      OpType.is_conflict_free, checkedAdd, i64Min, i64Max, Int.add_assoc]

set_option maxHeartbeats 2000000 in
theorem mergeAssoc_multiply {F : Type} (ops : FloatOps F)
    (hmulA : ∀ x y z, ops.fmul (ops.fmul x y) z = ops.fmul x (ops.fmul y z))
    (hofmul : ∀ m n : Int, ops.ofInt (m * n) = ops.fmul (ops.ofInt m) (ops.ofInt n))
    (a b c v w : AlgebraicValue F)
    (hL : AlgebraicMerger.mergeAssocL ops .AbelianMultiply a b c = .Merged v)
    (hR : AlgebraicMerger.mergeAssocR ops .AbelianMultiply a b c = .Merged w) :
    v = w := by
  cases a <;> cases b <;> cases c <;>
    simp_all [AlgebraicMerger.mergeAssocL, AlgebraicMerger.mergeAssocR,
      AlgebraicMerger.merge, AlgebraicMerger.merge_multiply, isNull_iff,
      OpType.is_conflict_free, checkedMul, i64Min, i64Max, Int.mul_assoc] <;>
    (try split_ifs at hL hR) <;>
    simp_all [AlgebraicMerger.mergeAssocL, AlgebraicMerger.mergeAssocR,
      AlgebraicMerger.merge, AlgebraicMerger.merge_multiply, isNull_iff,
      OpType.is_conflict_free, checkedMul, i64Min, i64Max, Int.mul_assoc] <;>
    (try split_ifs at hL hR) <;>
    simp_all [AlgebraicMerger.mergeAssocL, AlgebraicMerger.mergeAssocR,
      AlgebraicMerger.merge, AlgebraicMerger.merge_multiply, isNull_iff,
      OpType.is_conflict_free, checkedMul, i64Min, i64Max, Int.mul_assoc]

theorem merge_commutative_witness :
    AlgebraicMerger.merge intFloatOps .AbelianAdd (.Integer 5) (.Integer 3)
        = .Merged (.Integer 8) ∧
    AlgebraicMerger.merge intFloatOps .AbelianAdd (.Integer 3) (.Integer 5)
        = .Merged (.Integer 8) ∧
    (AlgebraicValue.Integer 8 : AlgebraicValue Int) = .Integer 8 :=
  ⟨by decide, by decide,
   merge_commutative intFloatOps
     (fun x y => Int.add_comm x y) (fun x y => Int.mul_comm x y)
     (fun x y => max_comm x y) (fun x y => min_comm x y)
     .AbelianAdd rfl (.Integer 5) (.Integer 3) (.Integer 8) (.Integer 8)
     (by decide) (by decide)⟩

/-- C2 (amended): merge is associative for conflict-free operations whenever
both association orders fully merge (and the abstract float primitives are
associative with `ofInt` a homomorphism); near the `i64` bounds one order can
return `Conflict` while the other merges, so unconditional associativity
fails (see the counterexample). -/
theorem merge_assoc_of_merged {F : Type} (ops : FloatOps F)
    (haddA : ∀ x y z, ops.fadd (ops.fadd x y) z = ops.fadd x (ops.fadd y z))
    (hmulA : ∀ x y z, ops.fmul (ops.fmul x y) z = ops.fmul x (ops.fmul y z))
    (hmaxA : ∀ x y z, ops.fmax (ops.fmax x y) z = ops.fmax x (ops.fmax y z))
    (hminA : ∀ x y z, ops.fmin (ops.fmin x y) z = ops.fmin x (ops.fmin y z))
    (hofadd : ∀ m n : Int, ops.ofInt (m + n) = ops.fadd (ops.ofInt m) (ops.ofInt n))
    (hofmul : ∀ m n : Int, ops.ofInt (m * n) = ops.fmul (ops.ofInt m) (ops.ofInt n))
    (hofmax : ∀ m n : Int, ops.ofInt (max m n) = ops.fmax (ops.ofInt m) (ops.ofInt n))
    (hofmin : ∀ m n : Int, ops.ofInt (min m n) = ops.fmin (ops.ofInt m) (ops.ofInt n))
    (op : OpType) (hop : op.is_conflict_free = true)
    (a b c v w : AlgebraicValue F)
    (hL : AlgebraicMerger.mergeAssocL ops op a b c = .Merged v)
    (hR : AlgebraicMerger.mergeAssocR ops op a b c = .Merged w) :
    v = w := by
  cases op
  case SemilatticeMax => exact mergeAssoc_max ops hmaxA hofmax a b c v w hL hR
  case SemilatticeMin => exact mergeAssoc_min ops hminA hofmin a b c v w hL hR
  case SemilatticeUnion => exact mergeAssoc_union ops a b c v w hL hR
  case SemilatticeIntersect => exact mergeAssoc_intersect ops a b c v w hL hR
  case AbelianAdd => exact mergeAssoc_add ops haddA hofadd a b c v w hL hR
  case AbelianMultiply => exact mergeAssoc_multiply ops hmulA hofmul a b c v w hL hR
  all_goals simp [OpType.is_conflict_free] at hop

theorem merge_assoc_of_merged_witness :
    AlgebraicMerger.mergeAssocL intFloatOps .AbelianAdd
        (.Integer 1) (.Integer 2) (.Integer 3) = .Merged (.Integer 6) ∧
    AlgebraicMerger.mergeAssocR intFloatOps .AbelianAdd
        (.Integer 1) (.Integer 2) (.Integer 3) = .Merged (.Integer 6) ∧
    (AlgebraicValue.Integer 6 : AlgebraicValue Int) = .Integer 6 :=
  ⟨by decide, by decide,
   merge_assoc_of_merged intFloatOps
     (fun x y z => Int.add_assoc x y z) (fun x y z => Int.mul_assoc x y z)
     (fun x y z => max_assoc x y z) (fun x y z => min_assoc x y z)
     (fun m n => rfl) (fun m n => rfl) (fun m n => rfl) (fun m n => rfl)
     .AbelianAdd rfl (.Integer 1) (.Integer 2) (.Integer 3) (.Integer 6) (.Integer 6)
     (by decide) (by decide)⟩

/-- C5 counterexample: a `WholeTable` write conflicts with a `Partitions`
write even when the partition list is empty — the code treats mixed
granularity as an unconditional conflict without intersecting anything. -/
theorem partition_detector_wholetable_counterexample :
    (PartitionLevelConflictDetector.detect pcTxWholeCE pcTxPartsCE).isSome = true ∧
    (∀ w ∈ pcTxPartsCE.writes, w.granularity = .Partitions []) := by
  constructor
  · decide
  · decide

/-- C5 (amended): for same-table writes, `PartitionLevelConflictDetector`
reports a conflict whenever either side is `WholeTable`, and for
`Partitions` × `Partitions` exactly when the partition lists intersect. -/
theorem partition_detector_spec (tx1 tx2 : TransactionRecord) (w1 w2 : TableWrite)
    (h1 : tx1.writes = [w1]) (h2 : tx2.writes = [w2])
    (ht : w1.table_name = w2.table_name) :
    ((∃ p, w1.granularity = .WholeTable ∧ w2.granularity = .Partitions p) →
      (PartitionLevelConflictDetector.detect tx1 tx2).isSome = true) ∧
    ((∃ p, w1.granularity = .Partitions p ∧ w2.granularity = .WholeTable) →
      (PartitionLevelConflictDetector.detect tx1 tx2).isSome = true) ∧
    (∀ p1 p2, w1.granularity = .Partitions p1 → w2.granularity = .Partitions p2 →
      ((PartitionLevelConflictDetector.detect tx1 tx2).isSome = true ↔
        ∃ s, s ∈ p1 ∧ s ∈ p2)) := by
  refine ⟨?_, ?_, ?_⟩
  · rintro ⟨p, hw1, hw2⟩
    simp [PartitionLevelConflictDetector.detect, h1, h2,
      PartitionLevelConflictDetector.detectPair, ht, hw1, hw2]
  · rintro ⟨p, hw1, hw2⟩
    simp [PartitionLevelConflictDetector.detect, h1, h2,
      PartitionLevelConflictDetector.detectPair, ht, hw1, hw2]
  · intro p1 p2 hw1 hw2
    simp [PartitionLevelConflictDetector.detect, h1, h2,
      PartitionLevelConflictDetector.detectPair, ht, hw1, hw2,
      PartitionLevelConflictDetector.partitionsOverlap, List.any_eq_true]

theorem partition_detector_spec_witness :
    ({ TransactionRecord.new 1 1 "main" 0 with
        writes := [{ TableWrite.new "users" 1 ["c1"] with
          granularity := .Partitions ["p1"] }] } : TransactionRecord).writes
      = [{ TableWrite.new "users" 1 ["c1"] with granularity := .Partitions ["p1"] }] ∧
    ((PartitionLevelConflictDetector.detect
        { TransactionRecord.new 1 1 "main" 0 with
          writes := [{ TableWrite.new "users" 1 ["c1"] with
            granularity := .Partitions ["p1"] }] }
        { TransactionRecord.new 2 1 "main" 0 with
          writes := [{ TableWrite.new "users" 1 ["c2"] with
            granularity := .Partitions ["p1", "p2"] }] }).isSome = true ↔
      ∃ s, s ∈ ["p1"] ∧ s ∈ ["p1", "p2"]) :=
  ⟨rfl,
   (partition_detector_spec
      { TransactionRecord.new 1 1 "main" 0 with
        writes := [{ TableWrite.new "users" 1 ["c1"] with
          granularity := .Partitions ["p1"] }] }
      { TransactionRecord.new 2 1 "main" 0 with
        writes := [{ TableWrite.new "users" 1 ["c2"] with
          granularity := .Partitions ["p1", "p2"] }] }
      { TableWrite.new "users" 1 ["c1"] with granularity := .Partitions ["p1"] }
      { TableWrite.new "users" 1 ["c2"] with granularity := .Partitions ["p1", "p2"] }
      rfl rfl rfl).2.2 ["p1"] ["p1", "p2"] rfl rfl⟩

theorem alookup_ainsert {κ α : Type} [DecidableEq κ] (l : List (κ × α)) (k : κ)
    (v : α) (t : κ) :
    alookup (ainsert l k v) t = if k = t then some v else alookup l t := by
  induction l with
  | nil => simp [ainsert, alookup]
  | cons e rest ih =>
    by_cases hek : e.1 = k
    · simp only [ainsert, alookup, hek]
      by_cases hkt : k = t <;> simp [alookup, hkt, hek]
    · simp only [ainsert, alookup, hek, if_neg hek]
      by_cases het : e.1 = t
      · have : ¬ k = t := fun h => hek (h ▸ het)
        simp [alookup, het, this]
      · simp [alookup, het, ih]

theorem get_set_table_version (b : Branch) (k : String) (v : Nat) (t : String) :
    (b.set_table_version k v).get_table_version t =
      if k = t then some v else b.get_table_version t := by
  simp [Branch.set_table_version, Branch.get_table_version, alookup_ainsert]

/-- Any fold whose step keeps every already-present table keeps `t`
present. -/
theorem foldl_set_preserves_isSome {β : Type} (upd : Branch → β → Branch) (t : String)
    (hupd : ∀ b x, (b.get_table_version t).isSome = true →
      ((upd b x).get_table_version t).isSome = true) :
    ∀ (xs : List β) (b : Branch),
      (b.get_table_version t).isSome = true →
      ((xs.foldl upd b).get_table_version t).isSome = true := by
  intro xs
  induction xs with
  | nil => intro b h; simpa using h
  | cons x rest ih =>
    intro b h
    exact ih (upd b x) (hupd b x h)

/-- C10: a successful `merge_fast_forward` never drops a table — every table
present in the target branch head is still present in the merged head. -/
theorem merge_fast_forward_preserves_tables (source target merged : Branch)
    (h : BranchManager.merge_fast_forward source target = .ok merged)
    (t : String) (hv : (target.get_table_version t).isSome = true) :
    (merged.get_table_version t).isSome = true := by
  have hset : ∀ (b : Branch) (k : String) (v : Nat),
      (b.get_table_version t).isSome = true →
      ((b.set_table_version k v).get_table_version t).isSome = true := by
    intro b k v hb
    rw [get_set_table_version]
    by_cases hk : k = t <;> simp [hk, hb]
  unfold BranchManager.merge_fast_forward at h
  by_cases hfp : source.fork_point.isSome
  · rw [if_pos hfp] at h
    by_cases hc : (BranchDiff.compute source target).has_conflicts
    · simp [hc] at h
    · simp only [hc, Bool.false_eq_true, if_false, Except.ok.injEq] at h
      subst h
      apply foldl_set_preserves_isSome _ t (fun b x ht => hset b x.1 x.2 ht)
      apply foldl_set_preserves_isSome _ t (fun b x ht => hset b x.1 x.2.1 ht)
      exact hv
  · rw [if_neg hfp] at h
    rw [Except.ok.injEq] at h
    subst h
    refine foldl_set_preserves_isSome _ t ?_ source.head target hv
    intro b x htt
    by_cases hcond : x.2 > (b.get_table_version x.1).getD 0
    · rw [if_pos hcond]
      exact hset b x.1 x.2 htt
    · rw [if_neg hcond]
      exact htt

theorem merge_fast_forward_preserves_tables_witness :
    BranchManager.merge_fast_forward ffSourceCE ffTargetCE =
      .ok (ffTargetCE.set_table_version "users" 2) ∧
    ((ffTargetCE.set_table_version "users" 2).get_table_version "users").isSome = true :=
  ⟨by decide,
   merge_fast_forward_preserves_tables ffSourceCE ffTargetCE
     (ffTargetCE.set_table_version "users" 2) (by decide) "users" (by decide)⟩

/-- C4 counterexample: on the fork-point path, a source-only change whose
version is below the target's head overwrites the target downward — `users`
moves from 5 to 2. -/
theorem merge_fast_forward_lowers_version_counterexample :
    (BranchManager.merge_fast_forward ffSourceCE ffTargetCE).map
        (fun b => b.get_table_version "users") = .ok (some 2) ∧
    ffTargetCE.get_table_version "users" = some 5 ∧
    ¬ (2 : Nat) ≥ 5 := by
  refine ⟨by decide, by decide, by decide⟩

theorem no_fork_fold_monotone :
    ∀ (xs : List (String × Nat)) (b : Branch) (t : String) (v : Nat),
      b.get_table_version t = some v →
      ∃ vv, (xs.foldl
          (fun b e =>
            if e.2 > (b.get_table_version e.1).getD 0
            then b.set_table_version e.1 e.2 else b) b).get_table_version t
        = some vv ∧ v ≤ vv := by
  intro xs
  induction xs with
  | nil => intro b t v h; exact ⟨v, h, le_refl v⟩
  | cons e rest ih =>
    intro b t v h
    by_cases hcond : e.2 > (b.get_table_version e.1).getD 0
    · simp only [List.foldl_cons, hcond, if_true]
      by_cases het : e.1 = t
      · subst het
        have hv : (b.get_table_version e.1).getD 0 = v := by rw [h]; rfl
        have hle : v ≤ e.2 := by omega
        have hstep : (b.set_table_version e.1 e.2).get_table_version e.1 = some e.2 := by
          rw [get_set_table_version]; simp
        obtain ⟨vv, hvv, hvle⟩ := ih (b.set_table_version e.1 e.2) e.1 e.2 hstep
        exact ⟨vv, hvv, le_trans hle hvle⟩
      · have hstep : (b.set_table_version e.1 e.2).get_table_version t = some v := by
          rw [get_set_table_version, if_neg het]; exact h
        exact ih _ t v hstep
    · simp only [List.foldl_cons, hcond, if_false]
      exact ih b t v h

/-- C4 (amended): on the no-fork-point path `merge_fast_forward` is
monotone — it only ever raises a target table version, never lowers it. The
fork-point path is not monotone (see the counterexample). -/
theorem merge_fast_forward_no_fork_point_monotone (source target merged : Branch)
    (hfp : source.fork_point = none)
    (h : BranchManager.merge_fast_forward source target = .ok merged)
    (t : String) (v : Nat) (hv : target.get_table_version t = some v) :
    ∃ vv, merged.get_table_version t = some vv ∧ v ≤ vv := by
  unfold BranchManager.merge_fast_forward at h
  rw [hfp] at h
  simp only [Option.isSome_none, Bool.false_eq_true, if_false, Except.ok.injEq] at h
  subst h
  exact no_fork_fold_monotone source.head target t v hv

theorem merge_fast_forward_no_fork_point_monotone_witness :
    ffTargetCE.fork_point = none ∧
    BranchManager.merge_fast_forward ffTargetCE ffSourceCE =
      .ok (ffSourceCE.set_table_version "users" 5) ∧
    (∃ vv, (ffSourceCE.set_table_version "users" 5).get_table_version "users"
      = some vv ∧ 2 ≤ vv) :=
  ⟨rfl, by decide,
   merge_fast_forward_no_fork_point_monotone ffTargetCE ffSourceCE
     (ffSourceCE.set_table_version "users" 5) rfl (by decide) "users" 2 (by decide)⟩

theorem vectorClock_tick_get (c : VectorClock) (node : String) :
    (c.tick node).get node = c.get node + 1 := by
  simp [VectorClock.tick, VectorClock.get, alookup_ainsert]

theorem vectorClock_tick_get_ne (c : VectorClock) (node n : String) (h : n ≠ node) :
    (c.tick node).get n = c.get n := by
  have h2 : node ≠ n := Ne.symm h
  simp [VectorClock.tick, VectorClock.get, alookup_ainsert, h2]

/-- C9: `LocalCommitProtocol::commit_local` commits without coordination —
an empty transaction fails with `EmptyTransaction`, a transaction with any
non-conflict-free operation fails with `NonAlgebraic`, and a fully
conflict-free transaction succeeds, ticking exactly this node's vector-clock
entry. -/
theorem commit_local_spec {F : Type} (tx : AlgebraicTransaction F) (node : String)
    (clock : VectorClock) :
    (tx.operations = [] →
      LocalCommitProtocol.commit_local tx node clock = (.error .EmptyTransaction, clock)) ∧
    (tx.operations ≠ [] →
      ((∃ op ∈ tx.operations, op.op_type.is_conflict_free = false) →
        ∃ keys msg, LocalCommitProtocol.commit_local tx node clock
          = (.error (.NonAlgebraic keys msg), clock)) ∧
      ((∀ op ∈ tx.operations, op.op_type.is_conflict_free = true) →
        LocalCommitProtocol.commit_local tx node clock
          = (.ok ⟨tx.operations, clock.tick node, node, none⟩, clock.tick node) ∧
        (clock.tick node).get node = clock.get node + 1 ∧
        ∀ n, n ≠ node → (clock.tick node).get n = clock.get n)) := by
  constructor
  · intro hemp
    simp [LocalCommitProtocol.commit_local, AlgebraicTransaction.is_empty, hemp]
  · intro hne
    constructor
    · rintro ⟨op, hmem, hbad⟩
      have hnotall : tx.is_fully_algebraic = false := by
        simp [AlgebraicTransaction.is_fully_algebraic, List.all_eq_true,
          AlgebraicOperation.is_algebraic]
        exact ⟨op, hmem, by simp [hbad]⟩
      refine ⟨tx.non_algebraic_operations.map (·.1),
        "Operations " ++ String.intercalate ", "
          (tx.non_algebraic_operations.map (fun e => e.2.display))
          ++ " require coordination", ?_⟩
      simp [LocalCommitProtocol.commit_local, AlgebraicTransaction.is_empty,
        List.isEmpty_iff, hne, hnotall]
    · intro hall
      have hallb : tx.is_fully_algebraic = true := by
        simp [AlgebraicTransaction.is_fully_algebraic, List.all_eq_true,
          AlgebraicOperation.is_algebraic]
        exact hall
      refine ⟨?_, vectorClock_tick_get clock node,
        fun n hn => vectorClock_tick_get_ne clock node n hn⟩
      simp [LocalCommitProtocol.commit_local, AlgebraicTransaction.is_empty,
        List.isEmpty_iff, hne, hallb]

theorem commit_local_spec_witness :
    (({ operations := [⟨"counter", .AbelianAdd, .Integer 5⟩], metadata := [] } :
        AlgebraicTransaction Int).operations ≠ []) ∧
    (∀ op ∈ ({ operations := [⟨"counter", .AbelianAdd, .Integer 5⟩], metadata := [] } :
        AlgebraicTransaction Int).operations, op.op_type.is_conflict_free = true) ∧
    (LocalCommitProtocol.commit_local
        ({ operations := [⟨"counter", .AbelianAdd, .Integer 5⟩], metadata := [] } :
          AlgebraicTransaction Int) "node-1" ⟨[]⟩
      = (.ok ⟨[⟨"counter", .AbelianAdd, .Integer 5⟩],
          VectorClock.tick ⟨[]⟩ "node-1", "node-1", none⟩,
         VectorClock.tick ⟨[]⟩ "node-1") ∧
      (VectorClock.tick ⟨[]⟩ "node-1").get "node-1" =
        VectorClock.get ⟨[]⟩ "node-1" + 1 ∧
      ∀ n, n ≠ "node-1" →
        (VectorClock.tick ⟨[]⟩ "node-1").get n = VectorClock.get ⟨[]⟩ n) :=
  ⟨by decide, by decide,
   (commit_local_spec
      ({ operations := [⟨"counter", .AbelianAdd, .Integer 5⟩], metadata := [] } :
        AlgebraicTransaction Int) "node-1" ⟨[]⟩).2
     (by decide) |>.2 (by decide)⟩

theorem diffScan_cons_superset (tgt : List (String × Nat))
    (base : Option (List (String × Nat))) (t0 : String) (s0 : Nat)
    (rest : List (String × Nat)) :
    ((BranchDiff.diffScan tgt base rest).source_only ⊆
      (BranchDiff.diffScan tgt base ((t0, s0) :: rest)).source_only) ∧
    ((BranchDiff.diffScan tgt base rest).target_only ⊆
      (BranchDiff.diffScan tgt base ((t0, s0) :: rest)).target_only) ∧
    ((BranchDiff.diffScan tgt base rest).modified ⊆
      (BranchDiff.diffScan tgt base ((t0, s0) :: rest)).modified) := by
  refine ⟨?_, ?_, ?_⟩ <;>
    (intro x hx
     simp only [BranchDiff.diffScan]
     rcases halookup : alookup tgt t0 with _ | tv0 <;> simp only [halookup]
     · exact hx
     · split_ifs <;> (try rcases base with _ | bh) <;>
         simp_all [BranchDiff.diffScan] <;>
         (try rcases hbv : alookup bh t0 with _ | bv) <;>
         simp_all <;> split_ifs <;> simp_all)

theorem diffScan_classify (tgt : List (String × Nat)) (bh : List (String × Nat)) :
    ∀ (src : List (String × Nat)) (tbl : String) (sv tv : Nat),
      alookup src tbl = some sv → alookup tgt tbl = some tv → sv ≠ tv →
      (∀ bv, alookup bh tbl = some bv →
        ((sv ≠ bv ∧ tv = bv) →
          (tbl, sv, tv) ∈ (BranchDiff.diffScan tgt (some bh) src).source_only) ∧
        ((tv ≠ bv ∧ sv = bv) →
          (tbl, sv, tv) ∈ (BranchDiff.diffScan tgt (some bh) src).target_only) ∧
        ((sv ≠ bv ∧ tv ≠ bv) →
          (tbl, sv, tv) ∈ (BranchDiff.diffScan tgt (some bh) src).modified)) ∧
      (alookup bh tbl = none →
        (tbl, sv, tv) ∈ (BranchDiff.diffScan tgt (some bh) src).modified) := by
  intro src
  induction src with
  | nil => intro tbl sv tv hs; simp [alookup] at hs
  | cons e rest ih =>
    obtain ⟨t0, s0⟩ := e
    intro tbl sv tv hs ht hst
    by_cases h0 : t0 = tbl
    · subst h0
      rw [alookup, if_pos rfl, Option.some.injEq] at hs
      subst hs
      constructor
      · intro bv hb
        refine ⟨?_, ?_, ?_⟩ <;> intro hcond
        · simp [BranchDiff.diffScan, ht, hst, hb, hcond]
        · simp only [BranchDiff.diffScan, ht, if_neg hst, hb]
          rw [if_neg ?_, if_pos hcond]
          · simp
          · intro hx
            exact hcond.1 hx.2
        · simp only [BranchDiff.diffScan, ht, if_neg hst, hb]
          rw [if_neg ?_, if_neg ?_]
          · simp
          · intro hx; exact hcond.1 hx.2
          · intro hx; exact hcond.2 hx.2
      · intro hb
        simp [BranchDiff.diffScan, ht, hst, hb]
    · have hs2 : alookup rest tbl = some sv := by
        rw [alookup, if_neg h0] at hs; exact hs
      have hrec := ih tbl sv tv hs2 ht hst
      have hsup := diffScan_cons_superset tgt (some bh) t0 s0 rest
      constructor
      · intro bv hb
        refine ⟨?_, ?_, ?_⟩ <;> intro hcond
        · exact hsup.1 (((hrec.1 bv hb).1) hcond)
        · exact hsup.2.1 (((hrec.1 bv hb).2.1) hcond)
        · exact hsup.2.2 (((hrec.1 bv hb).2.2) hcond)
      · intro hb
        exact hsup.2.2 (hrec.2 hb)

theorem sortByTable_sorted {α : Type} (l : List (String × α)) :
    (sortByTable l).Sorted (fun a b => a.1 ≤ b.1) := by
  haveI htot : IsTotal (String × α) (fun a b => a.1 ≤ b.1) :=
    ⟨fun a b => le_total a.1 b.1⟩
  haveI htr : IsTrans (String × α) (fun a b => a.1 ≤ b.1) :=
    ⟨fun a b c h1 h2 => le_trans h1 h2⟩
  exact List.sorted_insertionSort _ l

theorem sortStrings_sorted (l : List String) :
    (sortStrings l).Sorted (· ≤ ·) := by
  exact List.sorted_insertionSort _ l

theorem sortByTable_mem {α : Type} (l : List (String × α)) (x : String × α) :
    x ∈ sortByTable l ↔ x ∈ l :=
  (List.perm_insertionSort _ l).mem_iff

/-- C8: `BranchDiff::compute_with_base` classifies a table changed on both
branches by the fork-point version — changed only in source, only in target,
or in both (a conflict); tables unknown to the base count as modified; all
result lists are sorted; and `has_conflicts` holds exactly when `modified` is
nonempty. -/
theorem branch_diff_three_way_spec (source target : Branch)
    (base : List (String × Nat)) (d : BranchDiff)
    (hd : d = BranchDiff.compute_with_base source target (some base)) :
    (∀ tbl sv tv, alookup source.head tbl = some sv →
      alookup target.head tbl = some tv → sv ≠ tv →
      (∀ bv, alookup base tbl = some bv →
        ((sv ≠ bv ∧ tv = bv) → (tbl, sv, tv) ∈ d.source_only_changes) ∧
        ((tv ≠ bv ∧ sv = bv) → (tbl, sv, tv) ∈ d.target_only_changes) ∧
        ((sv ≠ bv ∧ tv ≠ bv) → (tbl, sv, tv) ∈ d.modified)) ∧
      (alookup base tbl = none → (tbl, sv, tv) ∈ d.modified)) ∧
    d.unchanged.Sorted (· ≤ ·) ∧
    d.modified.Sorted (fun a b => a.1 ≤ b.1) ∧
    d.added_in_source.Sorted (fun a b => a.1 ≤ b.1) ∧
    d.added_in_target.Sorted (fun a b => a.1 ≤ b.1) ∧
    d.source_only_changes.Sorted (fun a b => a.1 ≤ b.1) ∧
    d.target_only_changes.Sorted (fun a b => a.1 ≤ b.1) ∧
    (d.has_conflicts = true ↔ d.modified ≠ []) := by
  subst hd
  refine ⟨?_, ?_, ?_, ?_, ?_, ?_, ?_, ?_⟩
  · intro tbl sv tv hs ht hst
    have hcl := diffScan_classify target.head base source.head tbl sv tv hs ht hst
    constructor
    · intro bv hb
      refine ⟨?_, ?_, ?_⟩ <;> intro hcond <;>
        simp only [BranchDiff.compute_with_base, sortByTable_mem]
      · exact ((hcl.1 bv hb).1) hcond
      · exact ((hcl.1 bv hb).2.1) hcond
      · exact ((hcl.1 bv hb).2.2) hcond
    · intro hb
      simp only [BranchDiff.compute_with_base, sortByTable_mem]
      exact hcl.2 hb
  · exact sortStrings_sorted _
  · exact sortByTable_sorted _
  · exact sortByTable_sorted _
  · exact sortByTable_sorted _
  · exact sortByTable_sorted _
  · exact sortByTable_sorted _
  · simp [BranchDiff.compute_with_base, List.isEmpty_iff]

theorem branch_diff_three_way_spec_witness :
    alookup (Branch.mk "feature" [("users", 2)] 0 (some "main") none
        (some [("users", 1)])).head "users" = some 2 ∧
    alookup (Branch.mk "main" [("users", 3)] 0 none none none).head "users" = some 3 ∧
    ((2 : Nat) ≠ 1 ∧ (3 : Nat) ≠ 1) ∧
    ("users", 2, 3) ∈ (BranchDiff.compute_with_base
      (Branch.mk "feature" [("users", 2)] 0 (some "main") none (some [("users", 1)]))
      (Branch.mk "main" [("users", 3)] 0 none none none)
      (some [("users", 1)])).modified :=
  ⟨rfl, rfl, ⟨by decide, by decide⟩,
   (((branch_diff_three_way_spec
      (Branch.mk "feature" [("users", 2)] 0 (some "main") none (some [("users", 1)]))
      (Branch.mk "main" [("users", 3)] 0 none none none)
      [("users", 1)] _ rfl).1 "users" 2 3 rfl rfl (by decide)).1 1 rfl).2.2
     ⟨by decide, by decide⟩⟩

theorem except_bind_ok {ε α β : Type} (a : α) (f : α → Except ε β) :
    ((Except.ok a : Except ε α) >>= f) = f a := rfl

theorem except_bind_error {ε α β : Type} (e : ε) (f : α → Except ε β) :
    ((Except.error e : Except ε α) >>= f) = .error e := rfl

theorem checkRecent_error (detect : TransactionRecord → TransactionRecord → Option Conflict)
    (tx : TransactionRecord) :
    ∀ (l : List TransactionRecord) (e : TransactionError),
      TransactionManager.checkRecent detect tx l = .error e →
      ∃ tables, e = .WriteConflict tables := by
  intro l
  induction l with
  | nil => intro e he; simp [TransactionManager.checkRecent] at he
  | cons c rest ih =>
    intro e he
    rw [TransactionManager.checkRecent] at he
    split_ifs at he
    · exact ih e he
    · rcases hdet : detect tx c with _ | conflict <;> rw [hdet] at he
      · exact ih e he
      · exact ⟨conflict.tables, by cases he; rfl⟩

theorem checkActive_error (detect : TransactionRecord → TransactionRecord → Option Conflict)
    (tx : TransactionRecord) :
    ∀ (l : List (Nat × TransactionRecord)) (e : TransactionError),
      TransactionManager.checkActive detect tx l = .error e →
      ∃ tables, e = .WriteConflict tables := by
  intro l
  induction l with
  | nil => intro e he; simp [TransactionManager.checkActive] at he
  | cons c rest ih =>
    intro e he
    rw [TransactionManager.checkActive] at he
    split_ifs at he
    · exact ih e he
    · exact ih e he
    · rcases hdet : detect tx c.2 with _ | conflict <;> rw [hdet] at he
      · exact ih e he
      · exact ⟨conflict.tables, by cases he; rfl⟩

theorem check_conflicts_error
    (detect : TransactionRecord → TransactionRecord → Option Conflict)
    (s : ManagerState) (tx : TransactionRecord) (e : TransactionError)
    (he : TransactionManager.check_conflicts detect s tx = .error e) :
    ∃ tables, e = .WriteConflict tables := by
  rw [TransactionManager.check_conflicts] at he
  rcases hr : TransactionManager.checkRecent detect tx s.recent_committed with er | u
  · rw [hr, except_bind_error] at he
    cases he
    exact checkRecent_error detect tx _ _ hr
  · rw [hr, except_bind_ok] at he
    exact checkActive_error detect tx _ _ he

theorem currentVersion_ok (s : ManagerState) (branch T : String) (cur : Nat)
    (h : TransactionManager.currentVersion s branch T = .ok (some cur)) :
    ∀ t, ∃ o, TransactionManager.currentVersion s branch t = .ok o := by
  intro t
  unfold TransactionManager.currentVersion at h ⊢
  rcases hbm : s.branch_manager with _ | branches
  · simp [hbm]
  · rcases hb : alookup branches branch with _ | head
    · exfalso
      rw [hbm] at h
      simp [hb] at h
    · exact ⟨alookup head t, by simp [hbm, hb]⟩

theorem validateSnapshotLoop_stale (s : ManagerState) (branch : String) :
    ∀ (snap : List (String × Nat)) (T : String) (v cur : Nat),
      (T, v) ∈ snap →
      TransactionManager.currentVersion s branch T = .ok (some cur) →
      cur ≠ v →
      ∃ t rv cv, TransactionManager.validateSnapshotLoop s branch snap
        = .error (.SnapshotConflict t rv cv) := by
  intro snap
  induction snap with
  | nil => intro T v cur hmem; simp at hmem
  | cons e0 rest ih =>
    obtain ⟨t0, rv0⟩ := e0
    intro T v cur hmem hcur hne
    rcases List.mem_cons.mp hmem with heq | hrest
    · injection heq with h1 h2
      subst h1
      subst h2
      rw [TransactionManager.validateSnapshotLoop, hcur, except_bind_ok]
      exact ⟨T, v, cur, by simp [hne]⟩
    · obtain ⟨o, ho⟩ := currentVersion_ok s branch T cur hcur t0
      rw [TransactionManager.validateSnapshotLoop, ho, except_bind_ok]
      rcases o with _ | c
      · obtain ⟨t, rv, cv, hv⟩ := ih T v cur hrest hcur hne
        exact ⟨t, rv, cv, by simp [hv]⟩
      · by_cases hc : c ≠ rv0
        · exact ⟨t0, rv0, c, by simp [hc]⟩
        · obtain ⟨t, rv, cv, hv⟩ := ih T v cur hrest hcur hne
          exact ⟨t, rv, cv, by simp [hc, hv]⟩

/-- C3: if an active transaction's read snapshot records table `T` at version
`v` and the current version of `T` differs from `v`, `commit` fails with a
`WriteConflict` or a `SnapshotConflict`; it never commits. -/
theorem commit_fails_on_stale_snapshot
    (detect : TransactionRecord → TransactionRecord → Option Conflict)
    (now : Int) (s : ManagerState) (tx_id : Nat) (tx : TransactionRecord)
    (hactive : alookup s.active_transactions tx_id = some tx)
    (hstatus : tx.status = .Active)
    (T : String) (v cur : Nat)
    (hread : (T, v) ∈ tx.read_snapshot)
    (hcur : TransactionManager.currentVersion s tx.branch T = .ok (some cur))
    (hne : cur ≠ v) :
    ∃ e, TransactionManager.commit detect now s tx_id = .error e ∧
      ((∃ tables, e = .WriteConflict tables) ∨
       (∃ t rv cv, e = .SnapshotConflict t rv cv)) := by
  rw [TransactionManager.commit]
  simp only [hactive, TransactionRecord.is_active, hstatus, Bool.not_true,
    Bool.false_eq_true, if_false, except_bind_ok]
  rcases hchk : TransactionManager.check_conflicts detect s tx with e | u
  · rw [except_bind_error]
    exact ⟨e, rfl, .inl (check_conflicts_error detect s tx e hchk)⟩
  · obtain ⟨t, rv, cv, hval⟩ :=
      validateSnapshotLoop_stale s tx.branch tx.read_snapshot T v cur hread hcur hne
    rw [except_bind_ok]
    unfold TransactionManager.validate_snapshot
    rw [hval, except_bind_error]
    exact ⟨.SnapshotConflict t rv cv, rfl, .inr ⟨t, rv, cv, rfl⟩⟩

/-- C3 witness: in `staleStateCE` the active transaction read `users@0` while
the catalog now holds `users@1`, and its commit indeed fails. -/
theorem commit_fails_on_stale_snapshot_witness :
    alookup staleStateCE.active_transactions 1 = some staleTxCE ∧
    staleTxCE.status = .Active ∧
    ("users", 0) ∈ staleTxCE.read_snapshot ∧
    TransactionManager.currentVersion staleStateCE staleTxCE.branch "users"
      = .ok (some 1) ∧
    (1 : Nat) ≠ 0 ∧
    ∃ e, TransactionManager.commit staleDetect 0 staleStateCE 1 = .error e ∧
      ((∃ tables, e = .WriteConflict tables) ∨
       (∃ t rv cv, e = .SnapshotConflict t rv cv)) :=
  ⟨rfl, rfl, List.mem_singleton.mpr rfl, rfl, by decide,
   commit_fails_on_stale_snapshot staleDetect 0 staleStateCE 1 staleTxCE
     rfl rfl "users" 0 1 (List.mem_singleton.mpr rfl) rfl (by decide)⟩

theorem recoverScan_keep_nonJson (c : CatalogState) :
    ∀ (p : List IntentFile) (f : IntentFile),
      f ∈ (FileCatalog.recoverScan c p).2 → ∃ s, f = .nonJson s := by
  intro p
  induction p with
  | nil => intro f hf; simp [FileCatalog.recoverScan] at hf
  | cons g rest ih =>
    intro f hf
    match g with
    | .nonJson s =>
      rw [FileCatalog.recoverScan] at hf
      rcases List.mem_cons.mp hf with heq | hmem
      · exact ⟨s, heq⟩
      · exact ih f hmem
    | .corrupt s =>
      rw [FileCatalog.recoverScan] at hf
      exact ih f hf
    | .valid pc =>
      rw [FileCatalog.recoverScan] at hf
      by_cases hcmt : FileCatalog.is_committed c pc.table_name pc.chunk_hashes
      · rw [if_pos hcmt] at hf
        exact ih f hf
      · rw [if_neg hcmt] at hf
        exact ih f hf

theorem recoverScan_nonJson_fixpoint (c : CatalogState) :
    ∀ (p : List IntentFile), (∀ f ∈ p, ∃ s, f = .nonJson s) →
      FileCatalog.recoverScan c p = ([], p) := by
  intro p
  induction p with
  | nil => intro _; rw [FileCatalog.recoverScan]
  | cons g rest ih =>
    intro hall
    obtain ⟨s, rfl⟩ := hall g (List.mem_cons_self g rest)
    rw [FileCatalog.recoverScan, ih (fun f hf => hall f (List.mem_cons_of_mem _ hf))]

theorem recover_pending_commits_idempotent (c : CatalogState) :
    FileCatalog.recover_pending_commits (FileCatalog.recover_pending_commits c).2 =
      ([], (FileCatalog.recover_pending_commits c).2) := by
  unfold FileCatalog.recover_pending_commits
  have hkeep := recoverScan_keep_nonJson c c.pending
  have hfix := recoverScan_nonJson_fixpoint
    { c with pending := (FileCatalog.recoverScan c c.pending).2 }
    (FileCatalog.recoverScan c c.pending).2 hkeep
  simp only [hfix]

theorem mark_aborted_not_active (tx : TransactionRecord) (reason : String) :
    (tx.mark_aborted reason).is_active = false ∧
      (tx.mark_aborted reason).is_preparing = false := by
  simp [TransactionRecord.mark_aborted, TransactionRecord.is_active,
    TransactionRecord.is_preparing]

/-- Equation lemma: `applyRollback` on a missing record only logs an
error. -/
theorem applyRollback_none (txs : List (Nat × TransactionRecord))
    (report : RecoveryReport) (i : Nat) (hi : alookup txs i = none) :
    RecoveryManager.applyRollback txs report i =
      (txs, { report with errors := report.errors
        ++ ["Failed to read tx " ++ toString i ++ " for rollback"] }) := by
  unfold RecoveryManager.applyRollback
  rw [hi]

/-- Equation lemma: `applyRollback` on a still-pending record marks it
aborted. -/
theorem applyRollback_some_pending (txs : List (Nat × TransactionRecord))
    (report : RecoveryReport) (i : Nat) (tx0 : TransactionRecord)
    (hi : alookup txs i = some tx0)
    (hact : (tx0.is_active || tx0.is_preparing) = true) :
    RecoveryManager.applyRollback txs report i =
      (ainsert txs i (tx0.mark_aborted "Recovery: pending transaction rolled back"),
       report) := by
  unfold RecoveryManager.applyRollback
  rw [hi]
  simp [hact]

/-- Equation lemma: `applyRollback` on an already-settled record is a
no-op. -/
theorem applyRollback_some_done (txs : List (Nat × TransactionRecord))
    (report : RecoveryReport) (i : Nat) (tx0 : TransactionRecord)
    (hi : alookup txs i = some tx0)
    (hact : (tx0.is_active || tx0.is_preparing) = false) :
    RecoveryManager.applyRollback txs report i = (txs, report) := by
  unfold RecoveryManager.applyRollback
  rw [hi]
  simp [hact]

/-- After one `applyRollback` step, the record stored at any id is either the
one stored before or an aborted record. -/
theorem applyRollback_lookup (txs : List (Nat × TransactionRecord))
    (report : RecoveryReport) (i id : Nat) (tx : TransactionRecord)
    (h : alookup (RecoveryManager.applyRollback txs report i).1 id = some tx) :
    alookup txs id = some tx ∨
      (tx.is_active = false ∧ tx.is_preparing = false) := by
  rcases hi : alookup txs i with _ | tx0
  · rw [applyRollback_none txs report i hi] at h
    exact .inl h
  · rcases hact : (tx0.is_active || tx0.is_preparing) with _ | _
    · rw [applyRollback_some_done txs report i tx0 hi hact] at h
      exact .inl h
    · rw [applyRollback_some_pending txs report i tx0 hi hact] at h
      simp only [alookup_ainsert] at h
      by_cases hii : i = id
      · rw [if_pos hii] at h
        cases h
        exact .inr (mark_aborted_not_active tx0 _)
      · rw [if_neg hii] at h
        exact .inl h

/-- Across the whole rollback fold, the record stored at any id is either the
one stored before the fold or a non-active, non-preparing record. -/
theorem rollFold_lookup :
    ∀ (ids : List Nat) (p : List (Nat × TransactionRecord) × RecoveryReport)
      (id : Nat) (tx : TransactionRecord),
      alookup (ids.foldl
        (fun (q : List (Nat × TransactionRecord) × RecoveryReport) i =>
          RecoveryManager.applyRollback q.1 q.2 i) p).1 id = some tx →
      alookup p.1 id = some tx ∨
        (tx.is_active = false ∧ tx.is_preparing = false) := by
  intro ids
  induction ids with
  | nil => intro p id tx h; exact .inl h
  | cons i rest ih =>
    intro p id tx h
    rw [List.foldl_cons] at h
    rcases ih _ id tx h with hmid | hna
    · exact applyRollback_lookup p.1 p.2 i id tx hmid
    · exact .inr hna

/-- An entry that is already non-active and non-preparing is left untouched by
the rollback fold. -/
theorem rollFold_keeps_inactive :
    ∀ (ids : List Nat) (p : List (Nat × TransactionRecord) × RecoveryReport)
      (id : Nat) (tx : TransactionRecord),
      alookup p.1 id = some tx →
      tx.is_active = false → tx.is_preparing = false →
      alookup (ids.foldl
        (fun (q : List (Nat × TransactionRecord) × RecoveryReport) i =>
          RecoveryManager.applyRollback q.1 q.2 i) p).1 id = some tx := by
  intro ids
  induction ids with
  | nil => intro p id tx h _ _; exact h
  | cons i rest ih =>
    intro p id tx h hna hnp
    rw [List.foldl_cons]
    refine ih _ id tx ?_ hna hnp
    rcases hi : alookup p.1 i with _ | tx0
    · rw [applyRollback_none p.1 p.2 i hi]
      exact h
    · rcases hact : (tx0.is_active || tx0.is_preparing) with _ | _
      · rw [applyRollback_some_done p.1 p.2 i tx0 hi hact]
        exact h
      · rw [applyRollback_some_pending p.1 p.2 i tx0 hi hact]
        simp only [alookup_ainsert]
        by_cases hii : i = id
        · subst hii
          rw [hi] at h
          cases h
          simp [hna, hnp] at hact
        · rw [if_neg hii]
          exact h

/-- Every id the fold processes ends up stored as a non-active,
non-preparing record (when it was present at all). -/
theorem rollFold_processed_inactive :
    ∀ (ids : List Nat) (p : List (Nat × TransactionRecord) × RecoveryReport)
      (id : Nat) (tx0 : TransactionRecord),
      id ∈ ids → alookup p.1 id = some tx0 →
      ∃ tx1, alookup (ids.foldl
        (fun (q : List (Nat × TransactionRecord) × RecoveryReport) i =>
          RecoveryManager.applyRollback q.1 q.2 i) p).1 id = some tx1 ∧
        tx1.is_active = false ∧ tx1.is_preparing = false := by
  intro ids
  induction ids with
  | nil => intro p id tx0 hmem; simp at hmem
  | cons i rest ih =>
    intro p id tx0 hmem h0
    rw [List.foldl_cons]
    rcases List.mem_cons.mp hmem with heq | hrest
    · subst heq
      rcases hact : (tx0.is_active || tx0.is_preparing) with _ | _
      · have hna : tx0.is_active = false := by
          rcases Bool.or_eq_false_iff.mp hact with ⟨h1, h2⟩
          exact h1
        have hnp : tx0.is_preparing = false := by
          rcases Bool.or_eq_false_iff.mp hact with ⟨h1, h2⟩
          exact h2
        rw [applyRollback_some_done p.1 p.2 id tx0 h0 hact]
        exact ⟨tx0, rollFold_keeps_inactive rest _ id tx0 h0 hna hnp, hna, hnp⟩
      · rw [applyRollback_some_pending p.1 p.2 id tx0 h0 hact]
        have hstep : alookup (ainsert p.1 id
            (tx0.mark_aborted "Recovery: pending transaction rolled back")) id =
            some (tx0.mark_aborted "Recovery: pending transaction rolled back") := by
          simp [alookup_ainsert]
        exact ⟨_, rollFold_keeps_inactive rest _ id _ hstep
          (mark_aborted_not_active tx0 _).1 (mark_aborted_not_active tx0 _).2,
          (mark_aborted_not_active tx0 _).1, (mark_aborted_not_active tx0 _).2⟩
    · rcases hi : alookup p.1 i with _ | txi
      · rw [applyRollback_none p.1 p.2 i hi]
        exact ih _ id tx0 hrest h0
      · rcases hact : (txi.is_active || txi.is_preparing) with _ | _
        · rw [applyRollback_some_done p.1 p.2 i txi hi hact]
          exact ih _ id tx0 hrest h0
        · rw [applyRollback_some_pending p.1 p.2 i txi hi hact]
          by_cases hii : i = id
          · subst hii
            rw [hi] at h0
            cases h0
            have hstep : alookup (ainsert p.1 i
                (tx0.mark_aborted "Recovery: pending transaction rolled back")) i =
                some (tx0.mark_aborted "Recovery: pending transaction rolled back") := by
              simp [alookup_ainsert]
            exact ih _ i _ hrest hstep
          · have hstep : alookup (ainsert p.1 i
                (txi.mark_aborted "Recovery: pending transaction rolled back")) id =
                some tx0 := by
              simp only [alookup_ainsert]
              rw [if_neg hii]
              exact h0
            exact ih _ id tx0 hrest hstep



theorem decide_rollback_iff (tx : TransactionRecord) :
    RecoveryManager.decide tx = .Rollback ↔
      (tx.is_active || tx.is_preparing) = true := by
  cases htx : tx.status <;>
    simp [RecoveryManager.decide, TransactionRecord.is_active,
      TransactionRecord.is_preparing, htx]

/-- One `scanTx` step appends at most the scanned id to `rolled_back`, and
only when the persisted record decides `Rollback`. -/
theorem scanTx_rolled_back_sub (l : LogState) (eid : Nat) (c : Bool)
    (report : RecoveryReport) (i : Nat) :
    ∃ s, (RecoveryManager.scanTx l eid c report i).rolled_back
        = report.rolled_back ++ s ∧
      ∀ x ∈ s, x = i ∧ ∃ tx, alookup l.txs i = some tx ∧
        RecoveryManager.decide tx = .Rollback := by
  simp only [RecoveryManager.scanTx]
  split
  · exact ⟨[], by simp, by simp⟩
  next tx heq =>
    split
    · exact ⟨[], by simp, by simp⟩
    · exact ⟨[], by simp, by simp⟩
    next hd =>
      refine ⟨[i], ?_, ?_⟩
      · split <;> simp
      · intro x hx
        have hxi := List.mem_singleton.mp hx
        subst hxi
        exact ⟨rfl, tx, heq, hd⟩
    · exact ⟨[], by simp, by simp⟩

/-- When the record decides `Rollback`, `scanTx` appends exactly the id. -/
theorem scanTx_rollback_eq (l : LogState) (eid : Nat) (c : Bool)
    (report : RecoveryReport) (i : Nat) (tx : TransactionRecord)
    (hi : alookup l.txs i = some tx)
    (hd : RecoveryManager.decide tx = .Rollback) :
    (RecoveryManager.scanTx l eid c report i).rolled_back
      = report.rolled_back ++ [i] := by
  simp only [RecoveryManager.scanTx, hi, hd]
  split <;> simp

/-- Across a whole epoch scan, everything appended to `rolled_back` is a
scanned id whose record decides `Rollback`. -/
theorem txFold_rolled_back_sub (l : LogState) (eid : Nat) (c : Bool) :
    ∀ (ids : List Nat) (report : RecoveryReport),
      ∃ s, (ids.foldl (RecoveryManager.scanTx l eid c) report).rolled_back
          = report.rolled_back ++ s ∧
        ∀ x ∈ s, x ∈ ids ∧ ∃ tx, alookup l.txs x = some tx ∧
          RecoveryManager.decide tx = .Rollback := by
  intro ids
  induction ids with
  | nil => intro report; exact ⟨[], by simp, by simp⟩
  | cons i rest ih =>
    intro report
    obtain ⟨s1, h1, h1p⟩ := scanTx_rolled_back_sub l eid c report i
    obtain ⟨s2, h2, h2p⟩ := ih (RecoveryManager.scanTx l eid c report i)
    refine ⟨s1 ++ s2, ?_, ?_⟩
    · rw [List.foldl_cons, h2, h1, List.append_assoc]
    · intro x hx
      rcases List.mem_append.mp hx with hx1 | hx2
      · obtain ⟨hxi, tx, htx, hdec⟩ := h1p x hx1
        subst hxi
        exact ⟨List.mem_cons_self x rest, tx, htx, hdec⟩
      · obtain ⟨hxr, htx⟩ := h2p x hx2
        exact ⟨List.mem_cons_of_mem i hxr, htx⟩

/-- Every scanned id whose record decides `Rollback` lands in
`rolled_back`. -/
theorem txFold_rollback_mem (l : LogState) (eid : Nat) (c : Bool) :
    ∀ (ids : List Nat) (report : RecoveryReport) (i : Nat)
      (tx : TransactionRecord), i ∈ ids → alookup l.txs i = some tx →
      RecoveryManager.decide tx = .Rollback →
      i ∈ (ids.foldl (RecoveryManager.scanTx l eid c) report).rolled_back := by
  intro ids
  induction ids with
  | nil => intro report i tx hmem; simp at hmem
  | cons j rest ih =>
    intro report i tx hmem hl hd
    rw [List.foldl_cons]
    rcases List.mem_cons.mp hmem with heq | hrest
    · subst heq
      obtain ⟨s, hs, _⟩ :=
        txFold_rolled_back_sub l eid c rest (RecoveryManager.scanTx l eid c report i)
      rw [hs, scanTx_rollback_eq l eid c report i tx hl hd]
      simp
    · exact ih _ i tx hrest hl hd

/-- The `last_committed_epoch` bookkeeping in `recover` leaves `rolled_back`
untouched. -/
theorem lceWrap_rolled_back (r : RecoveryReport) (c : Bool) (eid : Nat) :
    (if c then { r with last_committed_epoch := some eid } else r).rolled_back
      = r.rolled_back := by
  split <;> rfl

/-- Everything `recover` reports as rolled back is listed in some scanned
epoch and has a persisted record that decides `Rollback`. -/
theorem recoverFold_rolled_back_sub (l : LogState) :
    ∀ (es : List EpochEntry) (report : RecoveryReport),
      ∃ s, (es.foldl
          (fun report e =>
            let report :=
              if e.committed then
                { report with last_committed_epoch := some e.epoch_id }
              else report
            RecoveryManager.scan_epoch l e report)
          report).rolled_back = report.rolled_back ++ s ∧
        ∀ x ∈ s, (∃ e ∈ es, x ∈ e.tx_ids) ∧
          ∃ tx, alookup l.txs x = some tx ∧
            RecoveryManager.decide tx = .Rollback := by
  intro es
  induction es with
  | nil => intro report; exact ⟨[], by simp, by simp⟩
  | cons e rest ih =>
    intro report
    obtain ⟨s1, h1, h1p⟩ := txFold_rolled_back_sub l e.epoch_id e.committed e.tx_ids
      (if e.committed then { report with last_committed_epoch := some e.epoch_id }
       else report)
    obtain ⟨s2, h2, h2p⟩ := ih (RecoveryManager.scan_epoch l e
      (if e.committed then { report with last_committed_epoch := some e.epoch_id }
       else report))
    refine ⟨s1 ++ s2, ?_, ?_⟩
    · rw [List.foldl_cons]
      rw [h2]
      simp only [RecoveryManager.scan_epoch] at h1 ⊢
      rw [h1, lceWrap_rolled_back, List.append_assoc]
    · intro x hx
      rcases List.mem_append.mp hx with hx1 | hx2
      · obtain ⟨hxe, htx⟩ := h1p x hx1
        exact ⟨⟨e, List.mem_cons_self e rest, hxe⟩, htx⟩
      · obtain ⟨⟨e2, he2, hxe2⟩, htx⟩ := h2p x hx2
        exact ⟨⟨e2, List.mem_cons_of_mem e he2, hxe2⟩, htx⟩

/-- Every id listed in a scanned epoch whose record decides `Rollback` is
reported by the `recover` fold. -/
theorem recoverFold_rollback_mem (l : LogState) :
    ∀ (es : List EpochEntry) (report : RecoveryReport) (e : EpochEntry)
      (i : Nat) (tx : TransactionRecord),
      e ∈ es → i ∈ e.tx_ids → alookup l.txs i = some tx →
      RecoveryManager.decide tx = .Rollback →
      i ∈ (es.foldl
          (fun report e =>
            let report :=
              if e.committed then
                { report with last_committed_epoch := some e.epoch_id }
              else report
            RecoveryManager.scan_epoch l e report)
          report).rolled_back := by
  intro es
  induction es with
  | nil => intro report e i tx hmem; simp at hmem
  | cons e0 rest ih =>
    intro report e i tx hmem hie hl hd
    rw [List.foldl_cons]
    rcases List.mem_cons.mp hmem with heq | hrest
    · subst heq
      obtain ⟨s, hs, _⟩ := recoverFold_rolled_back_sub l rest
        (RecoveryManager.scan_epoch l e
          (if e.committed then { report with last_committed_epoch := some e.epoch_id }
           else report))
      rw [hs]
      refine List.mem_append.mpr (.inl ?_)
      exact txFold_rollback_mem l e.epoch_id e.committed e.tx_ids _ i tx hie hl hd
    · exact ih _ e i tx hrest hie hl hd

/-- Soundness of `recover`: a rolled-back id is epoch-listed and its record
is still active or preparing. -/
theorem recover_rolled_back_sound (l : LogState) (i : Nat)
    (h : i ∈ (RecoveryManager.recover l).rolled_back) :
    (∃ e ∈ l.epochs, i ∈ e.tx_ids) ∧
      ∃ tx, alookup l.txs i = some tx ∧
        (tx.is_active || tx.is_preparing) = true := by
  rw [RecoveryManager.recover] at h
  obtain ⟨s, hs, hsp⟩ := recoverFold_rolled_back_sub l l.epochs
    { RecoveryReport.new with epochs_scanned := l.epochs.length }
  rw [hs] at h
  have hmem : i ∈ s := by simpa [RecoveryReport.new] using h
  obtain ⟨he, tx, hl, hd⟩ := hsp i hmem
  exact ⟨he, tx, hl, (decide_rollback_iff tx).mp hd⟩

/-- Completeness of `recover`: every epoch-listed id whose record is still
active or preparing is reported as rolled back. -/
theorem recover_rollback_complete (l : LogState) (e : EpochEntry) (i : Nat)
    (tx : TransactionRecord) (he : e ∈ l.epochs) (hie : i ∈ e.tx_ids)
    (hl : alookup l.txs i = some tx)
    (hact : (tx.is_active || tx.is_preparing) = true) :
    i ∈ (RecoveryManager.recover l).rolled_back := by
  rw [RecoveryManager.recover]
  exact recoverFold_rollback_mem l l.epochs _ e i tx he hie hl
    ((decide_rollback_iff tx).mpr hact)


/-- `recover_and_apply`, written with the pair projections explicit. -/
theorem recover_and_apply_eq (l : LogState) :
    RecoveryManager.recover_and_apply l =
      (((RecoveryManager.recover l).rolled_back.foldl
          (fun (p : List (Nat × TransactionRecord) × RecoveryReport) tx_id =>
            RecoveryManager.applyRollback p.1 p.2 tx_id)
          (l.txs, RecoveryManager.recover l)).2,
       { l with txs := ((RecoveryManager.recover l).rolled_back.foldl
          (fun (p : List (Nat × TransactionRecord) × RecoveryReport) tx_id =>
            RecoveryManager.applyRollback p.1 p.2 tx_id)
          (l.txs, RecoveryManager.recover l)).1 }) := rfl

/-- After `recover_and_apply`, a second `recover` pass finds nothing left to
roll back. -/
theorem recover_and_apply_second_rolled_back (l : LogState) :
    (RecoveryManager.recover (RecoveryManager.recover_and_apply l).2).rolled_back
      = [] := by
  rw [List.eq_nil_iff_forall_not_mem]
  intro id hid
  obtain ⟨⟨e, he, hie⟩, tx2, hl2, hact2⟩ :=
    recover_rolled_back_sound (RecoveryManager.recover_and_apply l).2 id hid
  have hepochs : (RecoveryManager.recover_and_apply l).2.epochs = l.epochs := rfl
  have htxs : (RecoveryManager.recover_and_apply l).2.txs =
      ((RecoveryManager.recover l).rolled_back.foldl
        (fun (p : List (Nat × TransactionRecord) × RecoveryReport) tx_id =>
          RecoveryManager.applyRollback p.1 p.2 tx_id)
        (l.txs, RecoveryManager.recover l)).1 := rfl
  rw [htxs] at hl2
  rcases rollFold_lookup (RecoveryManager.recover l).rolled_back
      (l.txs, RecoveryManager.recover l) id tx2 hl2 with hold | hinact
  · have hmem : id ∈ (RecoveryManager.recover l).rolled_back :=
      recover_rollback_complete l e id tx2 (hepochs ▸ he) hie hold hact2
    obtain ⟨tx1, hl1, hna, hnp⟩ := rollFold_processed_inactive
      (RecoveryManager.recover l).rolled_back (l.txs, RecoveryManager.recover l)
      id tx2 hmem hold
    rw [hl2] at hl1
    injection hl1 with h12
    rw [h12] at hact2
    simp [hna, hnp] at hact2
  · simp [hinact.1, hinact.2] at hact2

/-- Running the log-recovery pass a second time leaves the on-disk log
unchanged. -/
theorem recover_and_apply_state_idempotent (l : LogState) :
    (RecoveryManager.recover_and_apply
        (RecoveryManager.recover_and_apply l).2).2
      = (RecoveryManager.recover_and_apply l).2 := by
  rw [recover_and_apply_eq ((RecoveryManager.recover_and_apply l).2)]
  rw [recover_and_apply_second_rolled_back l]
  rfl

/-- C6 (amended): recovery is idempotent on the on-disk state — a second
`recover_pending_commits` finds no orphans and leaves the catalog unchanged,
and a second `recover_and_apply` leaves the log unchanged with nothing left
to roll back. The second run's report is not the first run's report (see the
counterexample), so idempotence holds for state, not for reports. -/
theorem recovery_idempotent_on_state :
    ∀ (c : CatalogState) (l : LogState),
      FileCatalog.recover_pending_commits (FileCatalog.recover_pending_commits c).2
        = ([], (FileCatalog.recover_pending_commits c).2) ∧
      (RecoveryManager.recover_and_apply
          (RecoveryManager.recover_and_apply l).2).2
        = (RecoveryManager.recover_and_apply l).2 ∧
      (RecoveryManager.recover
          (RecoveryManager.recover_and_apply l).2).rolled_back = [] :=
  fun c l =>
    ⟨recover_pending_commits_idempotent c,
     recover_and_apply_state_idempotent l,
     recover_and_apply_second_rolled_back l⟩

/-- C6 counterexample: the catalog recovery report is not idempotent — the
first run reports the orphaned intent, the second reports none. -/
theorem recovery_report_not_idempotent_counterexample :
    (FileCatalog.recover_pending_commits recoveryCatalogCE).1 ≠
      (FileCatalog.recover_pending_commits
        (FileCatalog.recover_pending_commits recoveryCatalogCE).2).1 := by
  decide

end Rhizo
